import Mathlib

/-!
Verification of the rust-fatfs FAT filesystem driver (shallow embedding).

Each definition below is translated from a named function of the Rust
sources (`src/table.rs`, `src/time.rs`, `src/dir.rs`, `src/file.rs`,
`src/fs.rs`).  Machine integers are modelled as `Nat` with explicit
`% 2^w` at the points where the Rust code truncates or wraps; byte
stores are total functions `Nat → Nat` holding one byte per offset.
Fallible functions return `Option` or `Except`.
-/

/-! ## Byte stores and little-endian accessors

The FAT region is accessed by the Rust code through a seekable byte
stream (`DiskSlice`) using `byteorder`-style `read_u16/read_u32` and
`write_u16/write_u32` in little-endian order.  We model the region as a
function from byte offset to byte value.
-/

/-- A byte store: maps a byte offset to the byte stored there. -/
def Bytes : Type := Nat → Nat

/-- Point update of a byte store. -/
def Bytes.upd (bs : Bytes) (i v : Nat) : Bytes :=
  fun j => if j = i then v else bs j

/-- All bytes of the store are in range. -/
def BytesBounded (bs : Bytes) : Prop := ∀ i, bs i < 256

/-- Little-endian 16-bit read at `off` (byteorder `read_u16::LittleEndian`). -/
def readU16le (bs : Bytes) (off : Nat) : Nat :=
  bs off + 256 * bs (off + 1)

/-- Little-endian 16-bit write at `off` (byteorder `write_u16::LittleEndian`);
the value is split into its two low-endian bytes. -/
def writeU16le (bs : Bytes) (off v : Nat) : Bytes :=
  (bs.upd off (v % 256)).upd (off + 1) (v / 256 % 256)

/-- Little-endian 32-bit read at `off` (byteorder `read_u32::LittleEndian`). -/
def readU32le (bs : Bytes) (off : Nat) : Nat :=
  bs off + 256 * bs (off + 1) + 65536 * bs (off + 2) + 16777216 * bs (off + 3)

/-- Little-endian 32-bit write at `off` (byteorder `write_u32::LittleEndian`). -/
def writeU32le (bs : Bytes) (off v : Nat) : Bytes :=
  (((bs.upd off (v % 256)).upd (off + 1) (v / 256 % 256)).upd
    (off + 2) (v / 65536 % 256)).upd (off + 3) (v / 16777216 % 256)

/-! ## The FAT engine (`src/table.rs`) -/

/-- `table.rs`: `enum FatValue` (Free, Data, Bad, EndOfChain). -/
inductive FatValue : Type where
  | Free : FatValue
  | Data (n : Nat) : FatValue
  | Bad : FatValue
  | EndOfChain : FatValue
deriving DecidableEq, Repr

/-- `fs.rs`: `enum FatType` (Fat12, Fat16, Fat32). -/
inductive FatType : Type where
  | Fat12 : FatType
  | Fat16 : FatType
  | Fat32 : FatType
deriving DecidableEq, Repr

/-- `table.rs`: `const RESERVED_FAT_ENTRIES: u32 = 2`. -/
def RESERVED_FAT_ENTRIES : Nat := 2

/-- `table.rs` `Fat12::get_raw`: 12-bit entry packed at byte offset
`cluster + cluster/2`, nibble selected by `cluster & 1`. -/
def Fat12.get_raw (fat : Bytes) (cluster : Nat) : Nat :=
  let fat_offset := cluster + cluster / 2
  let packed_val := readU16le fat fat_offset
  if cluster &&& 1 == 0 then packed_val &&& 0x0FFF else packed_val >>> 4

/-- `table.rs` `Fat12::get`: decode a raw 12-bit value. -/
def Fat12.get (fat : Bytes) (cluster : Nat) : FatValue :=
  let val := Fat12.get_raw fat cluster
  if val = 0 then .Free
  else if val = 0xFF7 then .Bad
  else if 0xFF8 ≤ val ∧ val ≤ 0xFFF then .EndOfChain
  else .Data val

/-- Raw encoding used by `Fat12::set` (the `match value` block); `Data(n)`
is cast `n as u16`. -/
def Fat12.raw_value : FatValue → Nat
  | .Free => 0
  | .Bad => 0xFF7
  | .EndOfChain => 0xFFF
  | .Data n => n % 65536

/-- `table.rs` `Fat12::set`: read-modify-write of the packed 16-bit cell,
preserving the neighbouring nibble; `raw_val << 4` is a `u16` shift. -/
def Fat12.set (fat : Bytes) (cluster : Nat) (value : FatValue) : Bytes :=
  let raw_val := Fat12.raw_value value
  let fat_offset := cluster + cluster / 2
  let old_packed := readU16le fat fat_offset
  let new_packed :=
    if cluster &&& 1 == 0 then (old_packed &&& 0xF000) ||| raw_val
    else (old_packed &&& 0x000F) ||| ((raw_val <<< 4) % 65536)
  writeU16le fat fat_offset new_packed

/-- `table.rs` `Fat16::get_raw`: 16-bit entry at byte offset `cluster*2`. -/
def Fat16.get_raw (fat : Bytes) (cluster : Nat) : Nat :=
  readU16le fat (cluster * 2)

/-- `table.rs` `Fat16::get`. -/
def Fat16.get (fat : Bytes) (cluster : Nat) : FatValue :=
  let val := Fat16.get_raw fat cluster
  if val = 0 then .Free
  else if val = 0xFFF7 then .Bad
  else if 0xFFF8 ≤ val ∧ val ≤ 0xFFFF then .EndOfChain
  else .Data val

/-- Raw encoding used by `Fat16::set`; `Data(n)` is cast `n as u16`. -/
def Fat16.raw_value : FatValue → Nat
  | .Free => 0
  | .Bad => 0xFFF7
  | .EndOfChain => 0xFFFF
  | .Data n => n % 65536

/-- `table.rs` `Fat16::set`. -/
def Fat16.set (fat : Bytes) (cluster : Nat) (value : FatValue) : Bytes :=
  writeU16le fat (cluster * 2) (Fat16.raw_value value)

/-- `table.rs` `Fat32::get_raw`: 32-bit cell at `cluster*4`, masked to the
low 28 bits on read. -/
def Fat32.get_raw (fat : Bytes) (cluster : Nat) : Nat :=
  readU32le fat (cluster * 4) &&& 0x0FFFFFFF

/-- `table.rs` `Fat32::get`. -/
def Fat32.get (fat : Bytes) (cluster : Nat) : FatValue :=
  let val := Fat32.get_raw fat cluster
  if val = 0 then .Free
  else if val = 0x0FFFFFF7 then .Bad
  else if 0x0FFFFFF8 ≤ val ∧ val ≤ 0x0FFFFFFF then .EndOfChain
  else .Data val

/-- Raw encoding used by `Fat32::set`; `Data(n)` is the `u32` itself. -/
def Fat32.raw_value : FatValue → Nat
  | .Free => 0
  | .Bad => 0x0FFFFFF7
  | .EndOfChain => 0x0FFFFFFF
  | .Data n => n % 4294967296

/-- `table.rs` `Fat32::set`: the raw value is written to the whole 32-bit
cell (this revision performs no read-modify-write of the high 4 bits). -/
def Fat32.set (fat : Bytes) (cluster : Nat) (value : FatValue) : Bytes :=
  writeU32le fat (cluster * 4) (Fat32.raw_value value)

/-- `table.rs` `read_fat`: variant dispatch for `get`. -/
def read_fat (fat : Bytes) (fat_type : FatType) (cluster : Nat) : FatValue :=
  match fat_type with
  | .Fat12 => Fat12.get fat cluster
  | .Fat16 => Fat16.get fat cluster
  | .Fat32 => Fat32.get fat cluster

/-- `table.rs` `write_fat`: variant dispatch for `set`. -/
def write_fat (fat : Bytes) (fat_type : FatType) (cluster : Nat) (value : FatValue) : Bytes :=
  match fat_type with
  | .Fat12 => Fat12.set fat cluster value
  | .Fat16 => Fat16.set fat cluster value
  | .Fat32 => Fat32.set fat cluster value

/-- `table.rs` `Fat12::find_free` loop body.  The source walks a rolling
16-bit window over the packed table; the value it tests at each cluster
is exactly `Fat12.get_raw` of that cluster, and the loop tests the start
cluster before any bound check, stopping with an error when
`cluster + 1` reaches `end_cluster`.  `fuel` bounds the recursion; the
wrapper below supplies enough for the whole scanned range (when the fuel
runs out the scan has read past the table, which in the source surfaces
as a read error). -/
def Fat12.find_free_loop (fat : Bytes) (cluster end_cluster fuel : Nat) : Option Nat :=
  match fuel with
  | 0 => none
  | fuel + 1 =>
    if Fat12.get_raw fat cluster = 0 then some cluster
    else if cluster + 1 = end_cluster then none
    else Fat12.find_free_loop fat (cluster + 1) end_cluster fuel

/-- `table.rs` `Fat12::find_free`. -/
def Fat12.find_free (fat : Bytes) (start_cluster end_cluster : Nat) : Option Nat :=
  Fat12.find_free_loop fat start_cluster end_cluster (end_cluster - start_cluster)

/-- `table.rs` `Fat16::find_free`: scan `[start_cluster, end_cluster)` for
a zero 16-bit entry. -/
def Fat16.find_free (fat : Bytes) (cluster end_cluster : Nat) : Option Nat :=
  if cluster < end_cluster then
    if readU16le fat (cluster * 2) = 0 then some cluster
    else Fat16.find_free fat (cluster + 1) end_cluster
  else none
termination_by end_cluster - cluster

/-- `table.rs` `Fat32::find_free`: scan for a zero 28-bit entry. -/
def Fat32.find_free (fat : Bytes) (cluster end_cluster : Nat) : Option Nat :=
  if cluster < end_cluster then
    if readU32le fat (cluster * 4) &&& 0x0FFFFFFF = 0 then some cluster
    else Fat32.find_free fat (cluster + 1) end_cluster
  else none
termination_by end_cluster - cluster

/-- `table.rs` `find_free_cluster`: variant dispatch. -/
def find_free_cluster (fat : Bytes) (fat_type : FatType) (start_cluster end_cluster : Nat) :
    Option Nat :=
  match fat_type with
  | .Fat12 => Fat12.find_free fat start_cluster end_cluster
  | .Fat16 => Fat16.find_free fat start_cluster end_cluster
  | .Fat32 => Fat32.find_free fat start_cluster end_cluster

/-- `table.rs` `alloc_cluster`: pick a start cluster from the hint, scan
for a free entry (falling back to a scan from the start of the table),
mark the found cluster end-of-chain and link it behind `prev_cluster`.
Returns the updated table and the allocated cluster, or `none` for the
"no free cluster" error. -/
def alloc_cluster (fat : Bytes) (fat_type : FatType) (prev_cluster hint : Option Nat)
    (total_clusters : Nat) : Option (Bytes × Nat) :=
  let end_cluster := total_clusters + RESERVED_FAT_ENTRIES
  let start_cluster :=
    match hint with
    | some n => if n < end_cluster then n else RESERVED_FAT_ENTRIES
    | none => RESERVED_FAT_ENTRIES
  let found :=
    match find_free_cluster fat fat_type start_cluster end_cluster with
    | some n => some n
    | none =>
      if start_cluster > RESERVED_FAT_ENTRIES then
        find_free_cluster fat fat_type RESERVED_FAT_ENTRIES start_cluster
      else none
  match found with
  | none => none
  | some new_cluster =>
    let fat := write_fat fat fat_type new_cluster .EndOfChain
    let fat :=
      match prev_cluster with
      | some n => write_fat fat fat_type n (.Data new_cluster)
      | none => fat
    some (fat, new_cluster)

/-- Largest `total_clusters` consistent with each FAT variant: the
variant is chosen from the cluster count (`FatType::from_clusters`,
`fs.rs`), so a FAT12 volume has fewer than 4085 clusters and a FAT16
volume fewer than 65525; for FAT32 the bound keeps every data-cluster
index below the bad-cluster sentinel `0x0FFFFFF7`. -/
def FatType.max_total_clusters : FatType → Nat
  | .Fat12 => 4084
  | .Fat16 => 65524
  | .Fat32 => 268435444

/-- A FAT value that is legal to store for a volume with
`total_clusters` data clusters: a `Data` pointer names a real cluster
(`2 ≤ n < total_clusters + 2`). -/
def FatValue.ValidFor (total_clusters : Nat) : FatValue → Prop
  | .Data n => 2 ≤ n ∧ n < total_clusters + 2
  | _ => True

/-! ## DOS dates and times (`src/time.rs`) -/

/-- `time.rs` `struct Date` (full year, month of year, day of month). -/
structure Date : Type where
  year : Nat
  month : Nat
  day : Nat
deriving DecidableEq, Repr

/-- `time.rs` `Date::decode`. -/
def Date.decode (dos_date : Nat) : Date :=
  { year := (dos_date >>> 9) + 1980
    month := (dos_date >>> 5) &&& 0xF
    day := dos_date &&& 0x1F }

/-- `time.rs` `Date::encode`; all arithmetic is on `u16`, so the result
is reduced modulo `2^16` (no truncation occurs for valid dates). -/
def Date.encode (d : Date) : Nat :=
  (((d.year - 1980) <<< 9) ||| (d.month <<< 5) ||| d.day) % 65536

/-- `time.rs` `struct Time` (hour, minute, second, millisecond). -/
structure Time : Type where
  hour : Nat
  min : Nat
  sec : Nat
  millis : Nat
deriving DecidableEq, Repr

/-- `time.rs` `Time::decode`: note the source adds `dos_time_hi_res / 2`
to the seconds and decodes milliseconds as `(dos_time_hi_res % 100) * 10`. -/
def Time.decode (dos_time dos_time_hi_res : Nat) : Time :=
  { hour := dos_time >>> 11
    min := (dos_time >>> 5) &&& 0x3F
    sec := (dos_time &&& 0x1F) * 2 + dos_time_hi_res / 2
    millis := (dos_time_hi_res % 100) * 10 }

/-- `time.rs` `Time::encode`: returns the packed 16-bit time word and
the high-resolution byte `millis / 100 + (sec % 2) * 100` (cast to `u8`). -/
def Time.encode (t : Time) : Nat × Nat :=
  ((((t.hour <<< 11) ||| (t.min <<< 5) ||| (t.sec / 2))) % 65536,
    (t.millis / 100 + t.sec % 2 * 100) % 256)

/-- A valid DOS date per the field ranges documented on `Date`. -/
def Date.Valid (d : Date) : Prop :=
  1980 ≤ d.year ∧ d.year ≤ 2107 ∧ 1 ≤ d.month ∧ d.month ≤ 12 ∧ 1 ≤ d.day ∧ d.day ≤ 31

/-- A valid time of day per the field ranges documented on `Time`. -/
def Time.Valid (t : Time) : Prop :=
  t.hour ≤ 23 ∧ t.min ≤ 59 ∧ t.sec ≤ 59 ∧ t.millis ≤ 999

/-! ## Error kinds

The first six constructors mirror the `ErrorKind` values reachable from
`dir.rs` through its `io` abstraction; `DirectoryIsNotEmpty` mirrors the
variant of the same name declared in `src/error.rs` (not constructible
from `dir.rs`, which only has the `io` kinds available).
-/

inductive IoErrorKind : Type where
  | Other : IoErrorKind
  | InvalidInput : IoErrorKind
  | UnexpectedEof : IoErrorKind
  | NotFound : IoErrorKind
  | AlreadyExists : IoErrorKind
  | WriteZero : IoErrorKind
  | DirectoryIsNotEmpty : IoErrorKind
deriving DecidableEq, Repr

/-! ## Directory removal (`src/dir.rs`, `Dir::remove` / `Dir::is_empty`) -/

/-- The fields of a resolved directory entry that `Dir::remove` consults:
its directory attribute, its first cluster, and the on-stream byte range
`(offset_range.0, offset_range.1)` covering its LFN+SFN group. -/
structure DirEntryInfo : Type where
  is_dir : Bool
  first_cluster : Option Nat
  offset_begin : Nat
  offset_end : Nat
deriving DecidableEq, Repr

/-- The volume mutations performed by `Dir::remove`: clusters handed to
`free_cluster_chain` and directory-entry offsets whose records are
marked deleted. -/
structure RemoveState : Type where
  freed_chains : List Nat
  deleted_offsets : List Nat
deriving DecidableEq, Repr

/-- `dir.rs` `Dir::is_empty`: the directory holds no entry besides the
special names. `contents` is the list of names its iterator yields. -/
def dir_is_empty (contents : List String) : Bool :=
  contents.all fun nm => nm == "." || nm == ".."

/-- `dir.rs` `DIR_ENTRY_SIZE` (one on-disk record is 32 bytes). -/
def DIR_ENTRY_SIZE : Nat := 32

/-- `dir.rs` `Dir::remove`, final path component (the `None` branch of
`match rest_opt`): a non-empty directory is rejected before any
mutation; otherwise the cluster chain is freed and every record in the
entry's offset range is marked deleted. -/
def dir_remove (st : RemoveState) (e : DirEntryInfo) (contents : List String) :
    Except IoErrorKind RemoveState :=
  if e.is_dir && !dir_is_empty contents then
    .error .NotFound
  else
    let st :=
      match e.first_cluster with
      | some n => { st with freed_chains := st.freed_chains ++ [n] }
      | none => st
    let num := (e.offset_end - e.offset_begin) / DIR_ENTRY_SIZE
    .ok { st with
          deleted_offsets :=
            st.deleted_offsets ++
              (List.range num).map fun i => e.offset_begin + DIR_ENTRY_SIZE * i }

/-! ## Long-name validation (`src/dir.rs`, `validate_long_name`) -/

/-- `str::len()`: the length of the name in UTF-8 bytes. -/
def name_utf8_len (name : List Char) : Nat :=
  (name.map Char.utf8Size).sum

/-- The character classes accepted by the `match` in `validate_long_name`
(by scalar value): `a-z`, `A-Z`, `0-9`, `U+0080..U+FFFF`, and the listed
punctuation: dollar, percent, apostrophe, hyphen, underscore, at-sign,
tilde, backquote, bang, parentheses, braces, dot, space, plus, comma,
semicolon, equals, square brackets. -/
def allowed_long_name_char (c : Char) : Bool :=
  let n := c.toNat
  (0x61 ≤ n && n ≤ 0x7A) || (0x41 ≤ n && n ≤ 0x5A) || (0x30 ≤ n && n ≤ 0x39) ||
  (0x80 ≤ n && n ≤ 0xFFFF) ||
  n == 0x24 || n == 0x25 || n == 0x27 || n == 0x2D || n == 0x5F || n == 0x40 ||
  n == 0x7E || n == 0x60 || n == 0x21 || n == 0x28 || n == 0x29 ||
  n == 0x7B || n == 0x7D ||
  n == 0x2E || n == 0x20 || n == 0x2B || n == 0x2C || n == 0x3B || n == 0x3D ||
  n == 0x5B || n == 0x5D

/-- `dir.rs` `validate_long_name`: empty names and names longer than 255
bytes are rejected, then every character must be in the allowed set.
All three rejections carry `ErrorKind::InvalidInput`. -/
def validate_long_name (name : List Char) : Option IoErrorKind :=
  if name_utf8_len name = 0 then some .InvalidInput
  else if name_utf8_len name > 255 then some .InvalidInput
  else if name.all allowed_long_name_char then none
  else some .InvalidInput

/-- The length of the name in UTF-16 code units, as the specification
measures it (supplementary-plane characters take two units). -/
def name_utf16_len (name : List Char) : Nat :=
  (name.map fun c => if c.toNat < 0x10000 then 1 else 2).sum

/-- The acceptance condition exactly as the claim words it: non-empty, at
most 255 UTF-16 code units, and only letters, digits, the listed
punctuation, or any character above `0x7F`. -/
def spec_name_accepted (name : List Char) : Bool :=
  !name.isEmpty && name_utf16_len name ≤ 255 &&
    name.all fun c =>
      let n := c.toNat
      (0x61 ≤ n && n ≤ 0x7A) || (0x41 ≤ n && n ≤ 0x5A) || (0x30 ≤ n && n ≤ 0x39) ||
      0x7F < n ||
      n == 0x24 || n == 0x25 || n == 0x27 || n == 0x2D || n == 0x5F || n == 0x40 ||
      n == 0x7E || n == 0x60 || n == 0x21 || n == 0x28 || n == 0x29 ||
      n == 0x7B || n == 0x7D ||
      n == 0x2E || n == 0x20 || n == 0x2B || n == 0x2C || n == 0x3B || n == 0x3D ||
      n == 0x5B || n == 0x5D

/-! ## FSInfo sector (`src/fs.rs`) -/

/-- `fs.rs` `struct FsInfoSector` (in-memory form). -/
structure FsInfoSector : Type where
  free_cluster_count : Option Nat
  next_free_cluster : Option Nat
  dirty : Bool
deriving DecidableEq, Repr

/-- `fs.rs` `FsInfoSector::deserialize`, restricted to the two stored
counters (the surrounding signature checks are not modelled): the raw
`u32` `0xFFFFFFFF` means "unknown", and `0` and `1` are rejected as
reserved for `next_free_cluster`. -/
def FsInfoSector.deserialize_values (raw_free raw_next : Nat) : FsInfoSector :=
  { free_cluster_count := if raw_free = 0xFFFFFFFF then none else some raw_free
    next_free_cluster :=
      if raw_next = 0xFFFFFFFF then none
      else if raw_next = 0 ∨ raw_next = 1 then none
      else some raw_next
    dirty := false }

/-- `fs.rs` `FsInfoSector::validate_and_fix`: discard a free count above
`total_clusters` and a next-free hint above
`total_clusters + RESERVED_FAT_ENTRIES`. -/
def FsInfoSector.validate_and_fix (fsi : FsInfoSector) (total_clusters : Nat) : FsInfoSector :=
  let max_valid_cluster_number := total_clusters + RESERVED_FAT_ENTRIES
  let fsi :=
    match fsi.free_cluster_count with
    | some n => if n > total_clusters then { fsi with free_cluster_count := none } else fsi
    | none => fsi
  match fsi.next_free_cluster with
  | some n => if n > max_valid_cluster_number then { fsi with next_free_cluster := none } else fsi
  | none => fsi

/-- `fs.rs` `FileSystem::new`, FSInfo handling: deserialize the stored
pair, discard the free count when the BPB dirty flag was set on mount,
then validate against the volume geometry (in that order). -/
def mount_fs_info (raw_free raw_next : Nat) (bpb_dirty : Bool) (total_clusters : Nat) :
    FsInfoSector :=
  let fs_info := FsInfoSector.deserialize_values raw_free raw_next
  let fs_info :=
    if bpb_dirty then { fs_info with free_cluster_count := none } else fs_info
  fs_info.validate_and_fix total_clusters

/-! ## Dirty-flag ordering (`src/fs.rs`, `FsIoAdapter::write` and
`FileSystem::set_dirty_flag`) -/

/-- `fs.rs` `struct FsStatusFlags`. -/
structure FsStatusFlags : Type where
  dirty : Bool
  io_error : Bool
deriving DecidableEq, Repr

/-- `fs.rs` `FsStatusFlags::encode`: bit 0 dirty, bit 1 io_error. -/
def FsStatusFlags.encode (f : FsStatusFlags) : Nat :=
  (if f.dirty then 1 else 0) ||| (if f.io_error then 2 else 0)

/-- One write reaching the underlying device: either payload bytes
forwarded by `FsIoAdapter::write`, or the single status-flag byte
rewritten by `set_dirty_flag`. -/
inductive DiskEvent : Type where
  | WriteData (size : Nat) : DiskEvent
  | WriteFlagByte (offset value : Nat) : DiskEvent
deriving DecidableEq, Repr

/-- The filesystem state that `FsIoAdapter::write` and `set_dirty_flag`
touch, plus the ordered trace of device writes they emit. -/
structure FsAdapterState : Type where
  bpb_status : FsStatusFlags
  current_status_flags : FsStatusFlags
  fat_type : FatType
  events : List DiskEvent
deriving DecidableEq, Repr

/-- `fs.rs` `FileSystem::set_dirty_flag`: OR the request into the flags
read from the BPB, skip the device write when nothing changed, otherwise
rewrite only the `reserved_1` byte (offset `0x041` on FAT32, `0x025`
otherwise) and remember the new flags. -/
def set_dirty_flag (st : FsAdapterState) (dirty : Bool) : FsAdapterState :=
  let flags : FsStatusFlags :=
    { st.bpb_status with dirty := st.bpb_status.dirty || dirty }
  if flags = st.current_status_flags then st
  else
    let offset := if st.fat_type = .Fat32 then 0x041 else 0x025
    { st with
      events := st.events ++ [.WriteFlagByte offset flags.encode]
      current_status_flags := flags }

/-- `fs.rs` `FsIoAdapter::write`: forward the buffer to the device, then
set the dirty flag if any byte was written.  `size` is the byte count
the inner device write reported. -/
def fs_io_adapter_write (st : FsAdapterState) (size : Nat) : FsAdapterState :=
  let st := { st with events := st.events ++ [.WriteData size] }
  if size > 0 then set_dirty_flag st true else st

/-- Does an event carry FAT payload data? -/
def DiskEvent.is_data : DiskEvent → Bool
  | .WriteData _ => true
  | .WriteFlagByte _ _ => false

/-- The ordering property claimed by the specification, over a trace:
some status-flag byte write occurs strictly before the first payload
write. -/
def flag_written_before_first_data (events : List DiskEvent) : Bool :=
  (events.takeWhile fun e => !e.is_data).any fun e => !e.is_data

/-! ## Seek-from-end on an entryless file (`src/file.rs`, `File::seek`) -/

/-- `io` `SeekFrom`. -/
inductive SeekFrom : Type where
  | Start (n : Nat) : SeekFrom
  | FromEnd (n : Int) : SeekFrom
  | Current (n : Int) : SeekFrom
deriving DecidableEq, Repr

/-- `file.rs` `File::seek`, first step: the target position before any
clamping or chain walking.  `entry_size` models
`self.entry.iter().next().map_or(None, |e| e.inner().size())`: the outer
`Option` is the directory-entry editor (`None` for the FAT32 root
directory), the inner one the stored size (`None` for directories).
`Except.error` models the `expect` panic message. -/
def file_seek_new_pos (entry_size : Option (Option Nat)) (offset : Nat) (pos : SeekFrom) :
    Except String Int :=
  match pos with
  | .Current x => .ok (Int.ofNat offset + x)
  | .Start x => .ok (Int.ofNat x)
  | .FromEnd x =>
    match entry_size.bind id with
    | none => .error "cannot seek from end if size is unknown"
    | some s => .ok (Int.ofNat s + x)

/-- `fs.rs` `FileSystem::root_dir` on FAT32 builds
`File::new(Some(root_dir_first_cluster), None, self)`: the entry editor
of the root-directory stream is `None`, so no size is attached. -/
def fat32_root_dir_entry_size : Option (Option Nat) := none

/-! ## Extended-boot-signature handling (`src/fs.rs`,
`BiosParameterBlock::deserialize`, `volume_id`, `volume_label_as_bytes`) -/

/-- The BPB fields involved in the `ext_sig` fixup. -/
structure BpbExt : Type where
  ext_sig : Nat
  volume_id : Nat
  volume_label : List Nat
  fs_type_label : List Nat
deriving DecidableEq, Repr

/-- `fs.rs` `BiosParameterBlock::deserialize`, trailing fixup: when the
extended boot signature is not `0x29` the volume id, volume label and
FS-type label read from disk are replaced by zeros. -/
def bpb_ext_sig_fixup (bpb : BpbExt) : BpbExt :=
  if bpb.ext_sig ≠ 0x29 then
    { bpb with
      volume_id := 0
      volume_label := List.replicate 11 0
      fs_type_label := List.replicate 8 0 }
  else bpb

/-- `fs.rs` `FileSystem::volume_id`. -/
def volume_id_of (bpb : BpbExt) : Nat := bpb.volume_id

/-- `fs.rs` `FileSystem::volume_label_as_bytes`: `rposition` of the last
byte that is not the `0x20` padding, giving the retained length. -/
def volume_label_as_bytes (bpb : BpbExt) : List Nat :=
  let full_label_slice := bpb.volume_label
  let len :=
    match full_label_slice.reverse.findIdx? (fun b => b ≠ 0x20) with
    | some i => full_label_slice.length - i
    | none => 0
  full_label_slice.take len

/-! ## Short-name generation (`src/dir.rs`, `ShortNameGenerator`)

Short names are 11-byte buffers (8.3 form, space padded).  The
generator state mirrors the Rust struct field for field.
-/

/-- `dir.rs` `struct ShortNameGenerator`. -/
structure ShortNameGenerator : Type where
  chksum : Nat
  long_prefix_bitmap : Nat
  prefix_chksum_bitmap : Nat
  name_fits : Bool
  lossy_conv : Bool
  exact_match : Bool
  basename_len : Nat
  short_name : List Nat
deriving DecidableEq, Repr

/-- The characters allowed verbatim in an 8.3 name (the `match` arms of
`copy_short_name_part`, by scalar value): letters, digits, and
bang, hash, dollar, percent, ampersand, apostrophe, parentheses,
hyphen, at-sign, caret, underscore, backquote, braces, tilde. -/
def allowed_83_char (n : Nat) : Bool :=
  (0x41 ≤ n && n ≤ 0x5A) || (0x61 ≤ n && n ≤ 0x7A) || (0x30 ≤ n && n ≤ 0x39) ||
  n == 0x21 || n == 0x23 || n == 0x24 || n == 0x25 || n == 0x26 || n == 0x27 ||
  n == 0x28 || n == 0x29 || n == 0x2D || n == 0x40 || n == 0x5E || n == 0x5F ||
  n == 0x60 || n == 0x7B || n == 0x7D || n == 0x7E

/-- `u8::to_ascii_uppercase` on a byte value. -/
def to_ascii_uppercase_byte (n : Nat) : Nat :=
  if 0x61 ≤ n ∧ n ≤ 0x7A then n - 32 else n

/-- `dir.rs` `ShortNameGenerator::copy_short_name_part` loop: walk the
source characters, stop when the destination is full (`fits = false`),
skip spaces and dots (lossy), replace disallowed characters by an
underscore (lossy), and uppercase.  `acc` is the list of bytes written
so far. -/
def copy_short_name_part_go (dst_len : Nat) (acc : List Nat) (lossy_conv : Bool) :
    List Char → List Nat × Bool × Bool
  | [] => (acc, true, lossy_conv)
  | c :: rest =>
    if acc.length = dst_len then (acc, false, lossy_conv)
    else
      let n := c.toNat
      if n = 0x20 ∨ n = 0x2E then copy_short_name_part_go dst_len acc true rest
      else
        let fixed_c := if allowed_83_char n then n else 0x5F
        let lossy_conv := lossy_conv || decide (fixed_c ≠ n)
        copy_short_name_part_go dst_len (acc ++ [to_ascii_uppercase_byte fixed_c]) lossy_conv rest

/-- `dir.rs` `ShortNameGenerator::copy_short_name_part`: returns the
written bytes (their count is the returned `dst_pos`) plus the
`fits` and `lossy` flags. -/
def copy_short_name_part (dst_len : Nat) (src : List Char) : List Nat × Bool × Bool :=
  copy_short_name_part_go dst_len [] false src

/-- `dir.rs` `ShortNameGenerator::checksum`: BSD rotating 16-bit sum of
the long name's characters (`u16` arithmetic, `c as u16` truncates). -/
def ShortNameGenerator.checksum (name : List Char) : Nat :=
  name.foldl
    (fun chksum c => ((chksum >>> 1) + ((chksum &&& 1) <<< 15) + c.toNat % 65536) % 65536) 0

/-- `dir.rs` `ShortNameGenerator::new`: split at the last dot, convert
basename and extension into the space-padded 11-byte buffer, record the
flags and the long name's checksum.  Bitmaps and `exact_match` start at
their `Default` values. -/
def ShortNameGenerator.new (name : List Char) : ShortNameGenerator :=
  let rfind_dot :=
    match name.reverse.findIdx? (fun c => c.toNat == 0x2E) with
    | some i => some (name.length - 1 - i)
    | none => none
  let parts :=
    match rfind_dot with
    | some index =>
      let bn := copy_short_name_part 8 (name.take index)
      let ext := copy_short_name_part 3 (name.drop (index + 1))
      (bn.1 ++ List.replicate (8 - bn.1.length) 0x20 ++
         ext.1 ++ List.replicate (3 - ext.1.length) 0x20,
       bn.2.1 && ext.2.1, bn.2.2 || ext.2.2, bn.1.length)
    | none =>
      let bn := copy_short_name_part 8 name
      (bn.1 ++ List.replicate (11 - bn.1.length) 0x20, bn.2.1, bn.2.2, bn.1.length)
  { chksum := ShortNameGenerator.checksum name
    long_prefix_bitmap := 0
    prefix_chksum_bitmap := 0
    name_fits := parts.2.1
    lossy_conv := parts.2.2.1
    exact_match := false
    basename_len := parts.2.2.2
    short_name := parts.1 }

/-- `char::to_digit(10)` on a byte viewed `as char`. -/
def char_to_digit10 (b : Nat) : Option Nat :=
  if 0x30 ≤ b ∧ b ≤ 0x39 then some (b - 0x30) else none

/-- `char::to_digit(16)` value of a byte viewed as a character. -/
def hex_digit_val (b : Nat) : Option Nat :=
  if 0x30 ≤ b ∧ b ≤ 0x39 then some (b - 0x30)
  else if 0x41 ≤ b ∧ b ≤ 0x46 then some (b - 0x41 + 10)
  else if 0x61 ≤ b ∧ b ≤ 0x66 then some (b - 0x61 + 10)
  else none

/-- `str::from_utf8` then `u16::from_str_radix(s, 16)`, collapsed to an
`Option`: `some v` exactly when both succeed with value `v`.  A leading
plus sign is accepted, every remaining byte must be a hex digit, and
the accumulated value must fit in a `u16`.  Bytes above `0x7F` can never
be hex digits, so UTF-8 decoding failures also collapse to `none`. -/
def from_str_radix16 (bytes : List Nat) : Option Nat :=
  let ds :=
    match bytes with
    | b :: rest => if b = 0x2B then rest else bytes
    | [] => []
  if ds.isEmpty then none
  else
    ds.foldl
      (fun acc b =>
        match acc, hex_digit_val b with
        | some a, some d => if a * 16 + d ≤ 0xFFFF then some (a * 16 + d) else none
        | _, _ => none)
      (some 0)

/-- `dir.rs` `ShortNameGenerator::add_existing`: record an exact-match
collision, a `PREFIX~k.EXT` collision against the long 6-character
prefix, and a `PR<chk>~k.EXT` collision against the 2-character prefix
followed by the four uppercase hex digits of our checksum.  The source
mutates `self` step by step, but every field it reads (`short_name`,
`basename_len`, `chksum`) is never written by this method, so the three
updated fields are computed here from the incoming state and stored in
one record update. -/
def ShortNameGenerator.add_existing (g : ShortNameGenerator) (short_name : List Nat) :
    ShortNameGenerator :=
  let exact_match := g.exact_match || (short_name == g.short_name)
  let ext_matches := short_name.drop 8 == g.short_name.drop 8
  let long_pl := min g.basename_len 6
  let num_suffix :=
    if short_name.getD long_pl 0 == 0x7E then char_to_digit10 (short_name.getD (long_pl + 1) 0)
    else none
  let long_prefix_bitmap :=
    match num_suffix with
    | some num =>
      if short_name.take long_pl == g.short_name.take long_pl && ext_matches then
        g.long_prefix_bitmap ||| (1 <<< num)
      else g.long_prefix_bitmap
    | none => g.long_prefix_bitmap
  let chk_pl := min g.basename_len 2
  let num_suffix2 :=
    if short_name.getD (chk_pl + 4) 0 == 0x7E then
      char_to_digit10 (short_name.getD (chk_pl + 4 + 1) 0)
    else none
  let prefix_chksum_bitmap :=
    match num_suffix2 with
    | some num =>
      if short_name.take chk_pl == g.short_name.take chk_pl && ext_matches &&
          from_str_radix16 ((short_name.drop chk_pl).take 4) == some g.chksum then
        g.prefix_chksum_bitmap ||| (1 <<< num)
      else g.prefix_chksum_bitmap
    | none => g.prefix_chksum_bitmap
  { g with exact_match := exact_match, long_prefix_bitmap := long_prefix_bitmap,
           prefix_chksum_bitmap := prefix_chksum_bitmap }

/-- `char::from_digit(d, 16).unwrap().to_ascii_uppercase()` as a byte
(call sites have `d < 16`). -/
def char_from_digit16_upper (d : Nat) : Nat :=
  if d < 10 then 0x30 + d else 0x41 + (d - 10)

/-- `dir.rs` `ShortNameGenerator::u16_to_u8_array`: the four uppercase
hex digits of a 16-bit checksum, most significant first. -/
def u16_to_u8_array (x : Nat) : List Nat :=
  [char_from_digit16_upper ((x >>> 12) &&& 0xF),
   char_from_digit16_upper ((x >>> 8) &&& 0xF),
   char_from_digit16_upper ((x >>> 4) &&& 0xF),
   char_from_digit16_upper (x &&& 0xF)]

/-- `dir.rs` `ShortNameGenerator::build_prefixed_name`: a space-padded
buffer holding the (possibly checksum-extended) prefix, a tilde, the
digit of `num`, and the extension bytes (`char::from_digit(num, 10)`;
call sites pass `1 ≤ num ≤ 9`). -/
def ShortNameGenerator.build_prefixed_name (g : ShortNameGenerator) (num : Nat)
    (with_chksum : Bool) : List Nat :=
  if with_chksum then
    let pl := min g.basename_len 2
    g.short_name.take pl ++ u16_to_u8_array g.chksum ++ [0x7E, 0x30 + num] ++
      List.replicate (8 - (pl + 4 + 2)) 0x20 ++ g.short_name.drop 8
  else
    let pl := min g.basename_len 6
    g.short_name.take pl ++ [0x7E, 0x30 + num] ++
      List.replicate (8 - (pl + 2)) 0x20 ++ g.short_name.drop 8

/-- `dir.rs` `ShortNameGenerator::generate`: return the name as-is when
it fit without loss or collision, otherwise the first free `~k` suffix
for `k = 1..=4`, then the first free checksum-prefixed `~k` for
`k = 1..=9`, and finally the `AlreadyExists` error. -/
def ShortNameGenerator.generate (g : ShortNameGenerator) : Except IoErrorKind (List Nat) :=
  if !g.lossy_conv && g.name_fits && !g.exact_match then .ok g.short_name
  else if g.long_prefix_bitmap &&& (1 <<< 1) = 0 then .ok (g.build_prefixed_name 1 false)
  else if g.long_prefix_bitmap &&& (1 <<< 2) = 0 then .ok (g.build_prefixed_name 2 false)
  else if g.long_prefix_bitmap &&& (1 <<< 3) = 0 then .ok (g.build_prefixed_name 3 false)
  else if g.long_prefix_bitmap &&& (1 <<< 4) = 0 then .ok (g.build_prefixed_name 4 false)
  else if g.prefix_chksum_bitmap &&& (1 <<< 1) = 0 then .ok (g.build_prefixed_name 1 true)
  else if g.prefix_chksum_bitmap &&& (1 <<< 2) = 0 then .ok (g.build_prefixed_name 2 true)
  else if g.prefix_chksum_bitmap &&& (1 <<< 3) = 0 then .ok (g.build_prefixed_name 3 true)
  else if g.prefix_chksum_bitmap &&& (1 <<< 4) = 0 then .ok (g.build_prefixed_name 4 true)
  else if g.prefix_chksum_bitmap &&& (1 <<< 5) = 0 then .ok (g.build_prefixed_name 5 true)
  else if g.prefix_chksum_bitmap &&& (1 <<< 6) = 0 then .ok (g.build_prefixed_name 6 true)
  else if g.prefix_chksum_bitmap &&& (1 <<< 7) = 0 then .ok (g.build_prefixed_name 7 true)
  else if g.prefix_chksum_bitmap &&& (1 <<< 8) = 0 then .ok (g.build_prefixed_name 8 true)
  else if g.prefix_chksum_bitmap &&& (1 <<< 9) = 0 then .ok (g.build_prefixed_name 9 true)
  else .error .AlreadyExists

/-! ## General helper lemmas -/

theorem name_utf8_len_eq_zero {name : List Char} : name_utf8_len name = 0 ↔ name = [] := by
  constructor
  · intro h
    cases name with
    | nil => rfl
    | cons c rest =>
      exfalso
      have hc := Char.utf8Size_pos c
      simp [name_utf8_len] at h
      omega
  · intro h
    subst h
    rfl

theorem dir_is_empty_eq_false {contents : List String}
    (h : ∃ nm ∈ contents, nm ≠ "." ∧ nm ≠ "..") : dir_is_empty contents = false := by
  obtain ⟨nm, hmem, h1, h2⟩ := h
  unfold dir_is_empty
  rw [List.all_eq_false]
  refine ⟨nm, hmem, ?_⟩
  simp [h1, h2]

/-! ## Claim C3 (`src/time.rs`) -/

/-- Claim C3: evaluation of the embedded `Time::encode` / `Time::decode`
at the failing input.  Encoding the valid time 00:00:03.000 stores the
high-resolution byte `0 / 100 + (3 % 2) * 100 = 100`, and decoding adds
`100 / 2 = 50` seconds instead of restoring the odd second, yielding
00:00:52.000 — the claimed 10 ms round-trip (and the documented range
`sec ∈ [0, 59]`) is violated by the code. -/
theorem time_encode_decode_at_odd_second :
    Time.decode (Time.encode ⟨0, 0, 3, 0⟩).1 (Time.encode ⟨0, 0, 3, 0⟩).2 =
      ⟨0, 0, 52, 0⟩ ∧
    Time.Valid ⟨0, 0, 3, 0⟩ ∧ (0 : Nat) % 10 = 0 ∧
    Time.decode (Time.encode ⟨0, 0, 2, 10⟩).1 (Time.encode ⟨0, 0, 2, 10⟩).2 =
      ⟨0, 0, 2, 0⟩ := by
  refine ⟨by decide, ?_, by decide, by decide⟩
  simp [Time.Valid]

/-! ## Claim C9 (`src/file.rs`, `File::seek`) -/

/-- Claim C9: `File::seek` with `SeekFrom::End(x)` on a handle without a
directory entry — such as the FAT32 root directory stream built by
`FileSystem::root_dir` — reaches the `expect` and panics with
"cannot seek from end if size is unknown", for every offset `x` and
every current position. -/
theorem seek_from_end_panics_without_entry (offset : Nat) (x : Int) :
    file_seek_new_pos fat32_root_dir_entry_size offset (.FromEnd x) =
      .error "cannot seek from end if size is unknown" := rfl

/-! ## Claim C6 (`src/fs.rs`, FSInfo validation at mount) -/

/-- Claim C6 counterexample: with `total_clusters = 10` a stored
`next_free_cluster` of `12 = total_clusters + 2` is strictly greater
than `total_clusters + 1`, so the claim says it is treated as unknown,
but `validate_and_fix` only discards values above
`total_clusters + RESERVED_FAT_ENTRIES = 12` and keeps it. -/
theorem fs_info_next_free_boundary_kept :
    (mount_fs_info 0xFFFFFFFF 12 false 10).next_free_cluster = some 12 ∧
    12 > 10 + 1 := by
  constructor
  · rfl
  · decide

/-- Claim C6 (amended): after the mount-time FSInfo handling, a stored
free count above `total_clusters` is unknown, a stored next-free hint
equal to 0 or 1 or above `total_clusters + 2` is unknown, and a set BPB
dirty flag forces the free count to unknown. -/
theorem validate_and_fix_free (f n : Option Nat) (d : Bool) (tc : Nat) :
    (FsInfoSector.validate_and_fix ⟨f, n, d⟩ tc).free_cluster_count =
      match f with
      | some x => if x > tc then none else some x
      | none => none := by
  unfold FsInfoSector.validate_and_fix
  cases f <;> cases n <;> simp
  all_goals try (split_ifs <;> simp_all)
  all_goals try (split_ifs <;> first | rfl | omega)

theorem validate_and_fix_next (f n : Option Nat) (d : Bool) (tc : Nat) :
    (FsInfoSector.validate_and_fix ⟨f, n, d⟩ tc).next_free_cluster =
      match n with
      | some x => if x > tc + RESERVED_FAT_ENTRIES then none else some x
      | none => none := by
  unfold FsInfoSector.validate_and_fix
  cases f <;> cases n <;> simp
  all_goals try (split_ifs <;> simp_all)
  all_goals try (split_ifs <;> first | rfl | omega)

theorem fs_info_mount_validation (raw_free raw_next : Nat) (bpb_dirty : Bool)
    (total_clusters : Nat) :
    (raw_free > total_clusters →
      (mount_fs_info raw_free raw_next bpb_dirty total_clusters).free_cluster_count = none) ∧
    (raw_next = 0 ∨ raw_next = 1 ∨ raw_next > total_clusters + 2 →
      (mount_fs_info raw_free raw_next bpb_dirty total_clusters).next_free_cluster = none) ∧
    (bpb_dirty = true →
      (mount_fs_info raw_free raw_next bpb_dirty total_clusters).free_cluster_count = none) := by
  refine ⟨?_, ?_, ?_⟩
  · intro hgt
    cases bpb_dirty
    · simp only [mount_fs_info, FsInfoSector.deserialize_values, Bool.false_eq_true,
        ite_false]
      rw [validate_and_fix_free]
      by_cases hF : raw_free = 4294967295
      · simp [hF]
      · simp [hF, hgt]
    · simp only [mount_fs_info, FsInfoSector.deserialize_values, ite_true]
      rw [validate_and_fix_free]
  · intro hbad
    have hnext : (if raw_next = 4294967295 then none
        else if raw_next = 0 ∨ raw_next = 1 then none else some raw_next : Option Nat) = none ∨
        (raw_next > total_clusters + 2 ∧
          (if raw_next = 4294967295 then none
            else if raw_next = 0 ∨ raw_next = 1 then none
            else some raw_next : Option Nat) = some raw_next) := by
      rcases hbad with h0 | h1 | hgt
      · subst h0; left; rfl
      · subst h1; left; rfl
      · by_cases hF : raw_next = 4294967295
        · left; simp [hF]
        · right
          have h01 : ¬(raw_next = 0 ∨ raw_next = 1) := by omega
          exact ⟨hgt, by simp [hF, h01]⟩
    cases bpb_dirty
    · simp only [mount_fs_info, FsInfoSector.deserialize_values, Bool.false_eq_true,
        ite_false]
      rw [validate_and_fix_next]
      rcases hnext with h | ⟨hgt, h⟩ <;> rw [h]
      simp only [RESERVED_FAT_ENTRIES]
      rw [if_pos (by omega)]
    · simp only [mount_fs_info, FsInfoSector.deserialize_values, ite_true]
      rw [validate_and_fix_next]
      rcases hnext with h | ⟨hgt, h⟩ <;> rw [h]
      simp only [RESERVED_FAT_ENTRIES]
      rw [if_pos (by omega)]
  · intro hdirty
    subst hdirty
    simp only [mount_fs_info, FsInfoSector.deserialize_values, ite_true]
    rw [validate_and_fix_free]

/-- Claim C6 witness: concrete instantiations discharging each
hypothesis of `fs_info_mount_validation`. -/
theorem fs_info_mount_validation_witness :
    (mount_fs_info 11 12 false 10).free_cluster_count = none ∧
    (mount_fs_info 11 13 false 10).next_free_cluster = none ∧
    (mount_fs_info 5 7 true 10).free_cluster_count = none :=
  ⟨(fs_info_mount_validation 11 12 false 10).1 (by omega),
   (fs_info_mount_validation 11 13 false 10).2.1 (by omega),
   (fs_info_mount_validation 5 7 true 10).2.2 rfl⟩

/-! ## Claim C7 (`src/fs.rs`, dirty flag vs FAT writes) -/

/-- Claim C7 counterexample: starting from a clean FAT32 state, one FAT
write through `FsIoAdapter::write` reaches the device *before* the
dirty-flag byte does — the payload write is the first device event and
the flag byte is written after it, so no flag write precedes the first
FAT mutation. -/
theorem dirty_flag_not_before_fat_write :
    (fs_io_adapter_write ⟨⟨false, false⟩, ⟨false, false⟩, .Fat32, []⟩ 1).events =
      [.WriteData 1, .WriteFlagByte 0x041 1] ∧
    flag_written_before_first_data
      (fs_io_adapter_write ⟨⟨false, false⟩, ⟨false, false⟩, .Fat32, []⟩ 1).events = false := by
  decide

/-- Claim C7 (amended): `FsIoAdapter::write` sets the dirty flag
immediately *after* forwarding the payload to the device: whenever the
inner write reports at least one byte, the in-memory status flags are
dirty afterwards, and the flag-byte write is appended right after the
payload event (or skipped when the flags were already dirty on disk). -/
theorem dirty_flag_after_fat_write (st : FsAdapterState) (size : Nat) (h : 0 < size) :
    (fs_io_adapter_write st size).current_status_flags.dirty = true ∧
    (fs_io_adapter_write st size).events =
      st.events ++ [.WriteData size] ++
        (if ({ st.bpb_status with dirty := true } : FsStatusFlags) = st.current_status_flags
          then []
          else [.WriteFlagByte (if st.fat_type = .Fat32 then 0x041 else 0x025)
                  (FsStatusFlags.encode { st.bpb_status with dirty := true })]) := by
  unfold fs_io_adapter_write set_dirty_flag
  rw [if_pos h]
  simp only [Bool.or_true]
  constructor
  · split_ifs with hflags
    · have h2 : st.current_status_flags.dirty =
          ({ st.bpb_status with dirty := true } : FsStatusFlags).dirty := by rw [← hflags]
      simpa using h2
    · simp
    · simp
  · split_ifs with hflags <;> simp

/-- Claim C7 witness: the amended ordering at a concrete clean state. -/
theorem dirty_flag_after_fat_write_witness :
    (fs_io_adapter_write ⟨⟨false, false⟩, ⟨false, false⟩, .Fat16, []⟩ 3).current_status_flags.dirty
      = true ∧
    (fs_io_adapter_write ⟨⟨false, false⟩, ⟨false, false⟩, .Fat16, []⟩ 3).events =
      [] ++ [.WriteData 3] ++
        (if ({ dirty := true, io_error := false } : FsStatusFlags) = ⟨false, false⟩ then []
          else [.WriteFlagByte (if (FatType.Fat16 : FatType) = .Fat32 then 0x041 else 0x025)
                  (FsStatusFlags.encode { dirty := true, io_error := false })]) :=
  dirty_flag_after_fat_write ⟨⟨false, false⟩, ⟨false, false⟩, .Fat16, []⟩ 3 (by decide)

/-! ## Claim C4 (`src/dir.rs`, `Dir::remove` of a non-empty directory) -/

/-- Claim C4 counterexample: removing a directory that still contains an
entry named "x" fails, but with `ErrorKind::NotFound` (message
"removing non-empty directory is denied", `dir.rs` line 218) — not with
a `DirectoryIsNotEmpty` kind, which exists only in the crate's unused
`error.rs` and is a different value. -/
theorem dir_remove_nonempty_not_directory_is_not_empty :
    dir_remove ⟨[], []⟩ ⟨true, some 5, 0, 64⟩ ["x"] = .error .NotFound ∧
    IoErrorKind.NotFound ≠ IoErrorKind.DirectoryIsNotEmpty := by
  constructor
  · rfl
  · decide

/-- Claim C4 (amended): removing a directory holding any entry besides
"." and ".." fails with the `NotFound` error kind, and the early return
happens before the cluster chain is freed or any directory record is
marked deleted, so the volume state is untouched. -/
theorem dir_remove_nonempty_returns_not_found (st : RemoveState) (e : DirEntryInfo)
    (contents : List String) (hdir : e.is_dir = true)
    (hne : ∃ nm ∈ contents, nm ≠ "." ∧ nm ≠ "..") :
    dir_remove st e contents = .error .NotFound := by
  unfold dir_remove
  rw [hdir, dir_is_empty_eq_false hne]
  rfl

/-- Claim C4 witness: the amended statement at a concrete non-empty
directory. -/
theorem dir_remove_nonempty_returns_not_found_witness :
    dir_remove ⟨[3], [96]⟩ ⟨true, some 7, 32, 128⟩ [".", "..", "file.txt"] =
      .error .NotFound :=
  dir_remove_nonempty_returns_not_found ⟨[3], [96]⟩ ⟨true, some 7, 32, 128⟩
    [".", "..", "file.txt"] rfl ⟨"file.txt", by simp, by decide, by decide⟩

/-! ## Claim C10 (`src/fs.rs`, extended boot signature fixup) -/

/-- Claim C10 counterexample: with `ext_sig = 0` the label is replaced
by eleven `0x00` bytes, and `volume_label_as_bytes` only strips trailing
`0x20` padding, so it returns the eleven zero bytes — not the empty
slice the claim promises. -/
theorem volume_label_not_empty_when_ext_sig_invalid :
    volume_label_as_bytes
        (bpb_ext_sig_fixup ⟨0, 0xAABB, List.replicate 11 0x41, List.replicate 8 0x42⟩) =
      List.replicate 11 0 ∧
    List.replicate 11 (0 : Nat) ≠ ([] : List Nat) := by
  constructor
  · rfl
  · decide

/-- Claim C10 (amended): whenever the extended boot signature differs
from `0x29`, the parsed BPB carries volume id 0, an all-zero volume
label and an all-zero FS-type label, `volume_id()` returns 0, and
`volume_label_as_bytes()` returns the eleven zero bytes (zero bytes are
not the `0x20` padding, so they are not stripped). -/
theorem ext_sig_invalid_fields_zeroed (bpb : BpbExt) (h : bpb.ext_sig ≠ 0x29) :
    (bpb_ext_sig_fixup bpb).volume_id = 0 ∧
    (bpb_ext_sig_fixup bpb).volume_label = List.replicate 11 0 ∧
    (bpb_ext_sig_fixup bpb).fs_type_label = List.replicate 8 0 ∧
    volume_id_of (bpb_ext_sig_fixup bpb) = 0 ∧
    volume_label_as_bytes (bpb_ext_sig_fixup bpb) = List.replicate 11 0 := by
  unfold bpb_ext_sig_fixup
  rw [if_pos h]
  exact ⟨rfl, rfl, rfl, rfl, rfl⟩

/-- Claim C10 witness. -/
theorem ext_sig_invalid_fields_zeroed_witness :
    (bpb_ext_sig_fixup ⟨0x28, 77, List.replicate 11 0x4C, List.replicate 8 0x46⟩).volume_id = 0 ∧
    (bpb_ext_sig_fixup ⟨0x28, 77, List.replicate 11 0x4C, List.replicate 8 0x46⟩).volume_label =
      List.replicate 11 0 ∧
    (bpb_ext_sig_fixup ⟨0x28, 77, List.replicate 11 0x4C, List.replicate 8 0x46⟩).fs_type_label =
      List.replicate 8 0 ∧
    volume_id_of (bpb_ext_sig_fixup ⟨0x28, 77, List.replicate 11 0x4C, List.replicate 8 0x46⟩) =
      0 ∧
    volume_label_as_bytes
        (bpb_ext_sig_fixup ⟨0x28, 77, List.replicate 11 0x4C, List.replicate 8 0x46⟩) =
      List.replicate 11 0 :=
  ext_sig_invalid_fields_zeroed ⟨0x28, 77, List.replicate 11 0x4C, List.replicate 8 0x46⟩
    (by decide)

/-! ## Claim C5 (`src/dir.rs`, `validate_long_name`) -/

/-- Claim C5 counterexample: two names accepted by the claim's wording
are rejected by the code with `InvalidInput`.  A single supplementary
character (`U+10000`, two UTF-16 code units, above `0x7F`) falls outside
the code's allowed range `U+0080..U+FFFF`; and 128 copies of `U+00F3`
are 128 UTF-16 code units but 256 UTF-8 bytes, tripping the byte-length
check `name.len() > 255`. -/
theorem validate_long_name_spec_mismatch :
    (spec_name_accepted [Char.ofNat 0x10000] = true ∧
      validate_long_name [Char.ofNat 0x10000] = some .InvalidInput) ∧
    (spec_name_accepted (List.replicate 128 (Char.ofNat 0xF3)) = true ∧
      validate_long_name (List.replicate 128 (Char.ofNat 0xF3)) = some .InvalidInput) := by
  constructor
  · exact ⟨by decide, by decide⟩
  · set_option maxRecDepth 8000 in exact ⟨by decide, by decide⟩

/-- Claim C5 (amended): creating an entry fails with `InvalidInput` (the
only kind `validate_long_name` produces) exactly when the requested name
is empty, longer than 255 **UTF-8 bytes**, or contains a character
outside the code's allowed set (letters, digits, the listed punctuation,
and characters in `U+0080..U+FFFF`); names of at most 255 UTF-8 bytes
made of such characters are accepted. -/
theorem validate_long_name_iff (name : List Char) :
    validate_long_name name = some .InvalidInput ↔
      (name = [] ∨ name_utf8_len name > 255 ∨
        ∃ c ∈ name, allowed_long_name_char c = false) := by
  unfold validate_long_name
  by_cases h0 : name_utf8_len name = 0
  · rw [if_pos h0]
    simp only [true_iff]
    exact Or.inl (name_utf8_len_eq_zero.mp h0)
  · rw [if_neg h0]
    by_cases hlong : name_utf8_len name > 255
    · rw [if_pos hlong]
      simp [hlong]
    · rw [if_neg hlong]
      by_cases hall : name.all allowed_long_name_char
      · rw [if_pos hall]
        have hne : name ≠ [] := fun hnil => h0 (by rw [hnil]; rfl)
        have hforall := List.all_eq_true.mp hall
        constructor
        · intro hcontra
          exact absurd hcontra (by simp)
        · intro hcases
          rcases hcases with h | h | ⟨c, hc, hcf⟩
          · exact absurd h hne
          · exact absurd h hlong
          · rw [hforall c hc] at hcf
            exact absurd hcf (by simp)
      · rw [if_neg hall]
        simp only [true_iff]
        refine Or.inr (Or.inr ?_)
        obtain ⟨c, hc, hcf⟩ := List.all_eq_false.mp (Bool.eq_false_iff.mpr hall)
        exact ⟨c, hc, by simpa using hcf⟩

/-- Claim C5 witness: the amended criterion applied at concrete names. -/
theorem validate_long_name_iff_witness :
    validate_long_name [] = some .InvalidInput ∧
    validate_long_name [Char.ofNat 0x61, Char.ofNat 0x2E, Char.ofNat 0x7A] = none :=
  ⟨(validate_long_name_iff []).mpr (Or.inl rfl),
   by
    have h := (validate_long_name_iff [Char.ofNat 0x61, Char.ofNat 0x2E, Char.ofNat 0x7A]).not
    cases hv : validate_long_name [Char.ofNat 0x61, Char.ofNat 0x2E, Char.ofNat 0x7A] with
    | none => rfl
    | some k =>
      exfalso
      have hk : k = .InvalidInput := by
        revert hv
        unfold validate_long_name
        split_ifs <;> intro hv <;> simp_all
      rw [hk] at hv
      have := (validate_long_name_iff [Char.ofNat 0x61, Char.ofNat 0x2E, Char.ofNat 0x7A]).mp hv
      revert this
      decide⟩

/-! ## Bit-arithmetic helper lemmas -/

theorem testBit_eq_false_of_lt {x n i : Nat} (hx : x < 2 ^ n) (hni : n ≤ i) :
    x.testBit i = false :=
  Nat.testBit_lt_two_pow (lt_of_lt_of_le hx (Nat.pow_le_pow_right (by norm_num) hni))

theorem shiftLeft_or_eq_add (q r k : Nat) (hr : r < 2 ^ k) :
    (q <<< k) ||| r = 2 ^ k * q + r := by
  have h1 : ((q <<< k) ||| r) >>> k = q := by
    apply Nat.eq_of_testBit_eq
    intro i
    rw [Nat.testBit_shiftRight, Nat.testBit_or, Nat.testBit_shiftLeft,
      testBit_eq_false_of_lt hr (Nat.le_add_right k i)]
    have hge : k + i ≥ k := Nat.le_add_right k i
    have hsub : k + i - k = i := by omega
    simp [hge, hsub]
  have h2 : ((q <<< k) ||| r) % 2 ^ k = r := by
    apply Nat.eq_of_testBit_eq
    intro i
    rw [Nat.testBit_mod_two_pow, Nat.testBit_or, Nat.testBit_shiftLeft]
    by_cases hik : i < k
    · have hik2 : ¬ i ≥ k := by omega
      simp [hik, hik2]
    · have hrb : r.testBit i = false := testBit_eq_false_of_lt hr (by omega)
      simp [hik, hrb]
  have h3 := Nat.div_add_mod ((q <<< k) ||| r) (2 ^ k)
  rw [← Nat.shiftRight_eq_div_pow] at h3
  rw [h1, h2] at h3
  exact h3.symm

theorem and_0xFFF (x : Nat) : x &&& 0x0FFF = x % 4096 := by
  have h : (0x0FFF : Nat) = 2 ^ 12 - 1 := by norm_num
  rw [h, Nat.and_pow_two_sub_one_eq_mod]

theorem and_0xF (x : Nat) : x &&& 0xF = x % 16 := by
  have h : (0xF : Nat) = 2 ^ 4 - 1 := by norm_num
  rw [h, Nat.and_pow_two_sub_one_eq_mod]

theorem and_28bits (x : Nat) : x &&& 0x0FFFFFFF = x % 268435456 := by
  have h : (0x0FFFFFFF : Nat) = 2 ^ 28 - 1 := by norm_num
  rw [h, Nat.and_pow_two_sub_one_eq_mod]

theorem and_0xF000 (x : Nat) : x &&& 0xF000 = x / 4096 % 16 * 4096 := by
  have h0 : (0xF000 : Nat) = (2 ^ 4 - 1) <<< 12 := by decide
  rw [h0]
  have h : x &&& ((2 ^ 4 - 1) <<< 12) = ((x >>> 12) &&& (2 ^ 4 - 1)) <<< 12 := by
    apply Nat.eq_of_testBit_eq
    intro i
    simp only [Nat.testBit_and, Nat.testBit_shiftLeft, Nat.testBit_shiftRight,
      Nat.testBit_two_pow_sub_one]
    by_cases h12 : 12 ≤ i
    · have hi : 12 + (i - 12) = i := by omega
      have hge : i ≥ 12 := h12
      rw [hi]
      cases hx : x.testBit i <;> simp [hge, hx]
    · have hge : ¬ i ≥ 12 := h12
      simp [hge]
  rw [h, Nat.shiftRight_eq_div_pow, Nat.and_pow_two_sub_one_eq_mod, Nat.shiftLeft_eq]

theorem fat12_new_packed_even (old rv : Nat) (hrv : rv < 4096) :
    (old &&& 0xF000) ||| rv = old / 4096 % 16 * 4096 + rv := by
  have h2 : (2 : Nat) ^ 12 = 4096 := by norm_num
  rw [and_0xF000]
  have key := shiftLeft_or_eq_add (old / 4096 % 16) rv 12 (by omega)
  rw [Nat.shiftLeft_eq, h2] at key
  rw [key]
  ring

theorem fat12_new_packed_odd (old rv : Nat) (hrv : rv < 4096) :
    (old &&& 0x000F) ||| ((rv <<< 4) % 65536) = 16 * rv + old % 16 := by
  have h2 : (2 : Nat) ^ 4 = 16 := by norm_num
  have hsl : rv <<< 4 = 16 * rv := by rw [Nat.shiftLeft_eq, h2]; ring
  have hlt : rv <<< 4 < 65536 := by rw [hsl]; omega
  rw [Nat.mod_eq_of_lt hlt, and_0xF, Nat.lor_comm,
    shiftLeft_or_eq_add rv (old % 16) 4 (by omega), h2]

/-! ## Byte-store helper lemmas -/

theorem writeU16le_at_lo (bs : Bytes) (off v : Nat) :
    writeU16le bs off v off = v % 256 := by
  unfold writeU16le Bytes.upd
  have h : off ≠ off + 1 := by omega
  simp [h]

theorem writeU16le_at_hi (bs : Bytes) (off v : Nat) :
    writeU16le bs off v (off + 1) = v / 256 % 256 := by
  unfold writeU16le Bytes.upd
  simp

theorem writeU16le_other (bs : Bytes) (off v j : Nat) (h1 : j ≠ off) (h2 : j ≠ off + 1) :
    writeU16le bs off v j = bs j := by
  unfold writeU16le Bytes.upd
  simp [h1, h2]

theorem readU16le_writeU16le_same (bs : Bytes) (off v : Nat) :
    readU16le (writeU16le bs off v) off = v % 65536 := by
  unfold readU16le
  rw [writeU16le_at_lo, writeU16le_at_hi]
  omega

theorem bytesBounded_writeU16le {bs : Bytes} (hb : BytesBounded bs) (off v : Nat) :
    BytesBounded (writeU16le bs off v) := by
  intro j
  unfold writeU16le Bytes.upd
  split_ifs <;> first | omega | exact hb j

theorem writeU32le_other (bs : Bytes) (off v j : Nat) (h1 : j ≠ off) (h2 : j ≠ off + 1)
    (h3 : j ≠ off + 2) (h4 : j ≠ off + 3) : writeU32le bs off v j = bs j := by
  unfold writeU32le Bytes.upd
  simp [h1, h2, h3, h4]

theorem readU32le_writeU32le_same (bs : Bytes) (off v : Nat) :
    readU32le (writeU32le bs off v) off = v % 4294967296 := by
  unfold readU32le writeU32le Bytes.upd
  have e1 : off ≠ off + 1 := by omega
  have e2 : off ≠ off + 2 := by omega
  have e3 : off ≠ off + 3 := by omega
  have e4 : off + 1 ≠ off + 2 := by omega
  have e5 : off + 1 ≠ off + 3 := by omega
  have e6 : off + 2 ≠ off + 3 := by omega
  simp [e1, e2, e3, e4, e5, e6]
  omega

theorem bytesBounded_writeU32le {bs : Bytes} (hb : BytesBounded bs) (off v : Nat) :
    BytesBounded (writeU32le bs off v) := by
  intro j
  unfold writeU32le Bytes.upd
  split_ifs <;> first | omega | exact hb j

/-! ## FAT cell lemmas -/

theorem and_one_beq_zero_of_even {c : Nat} (h : c % 2 = 0) : (c &&& 1 == 0) = true := by
  rw [Nat.and_one_is_mod, h]
  rfl

theorem and_one_beq_zero_of_odd {c : Nat} (h : c % 2 = 1) : (c &&& 1 == 0) = false := by
  rw [Nat.and_one_is_mod, h]
  rfl

theorem readU16le_writeU16le_other (bs : Bytes) (off v off2 : Nat) (h1 : off2 ≠ off)
    (h2 : off2 ≠ off + 1) (h3 : off2 + 1 ≠ off) (h4 : off2 + 1 ≠ off + 1) :
    readU16le (writeU16le bs off v) off2 = readU16le bs off2 := by
  unfold readU16le
  rw [writeU16le_other _ _ _ _ h1 h2, writeU16le_other _ _ _ _ h3 h4]

theorem fat12_get_raw_set_same (bs : Bytes) (c : Nat) (v : FatValue)
    (hrv : Fat12.raw_value v < 4096) :
    Fat12.get_raw (Fat12.set bs c v) c = Fat12.raw_value v := by
  have h16 : (2 : Nat) ^ 4 = 16 := by norm_num
  simp only [Fat12.get_raw, Fat12.set]
  rcases Nat.even_or_odd c with hc | hc
  · have hpar : c % 2 = 0 := Nat.even_iff.mp hc
    simp only [and_one_beq_zero_of_even hpar, if_true]
    rw [readU16le_writeU16le_same, fat12_new_packed_even _ _ hrv, and_0xFFF]
    omega
  · have hpar : c % 2 = 1 := Nat.odd_iff.mp hc
    simp only [and_one_beq_zero_of_odd hpar, Bool.false_eq_true, if_false]
    rw [readU16le_writeU16le_same, fat12_new_packed_odd _ _ hrv]
    simp only [Nat.shiftRight_eq_div_pow, h16]
    omega

theorem fat12_get_raw_set_ne (bs : Bytes) (hb : BytesBounded bs) (p c : Nat) (v : FatValue)
    (hrv : Fat12.raw_value v < 4096) (hne : p ≠ c) :
    Fat12.get_raw (Fat12.set bs p v) c = Fat12.get_raw bs c := by
  have h16 : (2 : Nat) ^ 4 = 16 := by norm_num
  have hb0 := hb (p + p / 2)
  have hb1 := hb (p + p / 2 + 1)
  simp only [Fat12.get_raw, Fat12.set]
  by_cases e2 : c + c / 2 = p + p / 2 + 1
  · -- overlap: p even, c = p + 1; the read's low byte is the written high byte
    have hp2 : p % 2 = 0 := by omega
    have hc : c = p + 1 := by omega
    subst hc
    have hc2 : (p + 1) % 2 = 1 := by omega
    simp only [and_one_beq_zero_of_even hp2, if_true,
      and_one_beq_zero_of_odd hc2, Bool.false_eq_true, if_false]
    unfold readU16le
    rw [e2, writeU16le_at_hi, writeU16le_other _ _ _ _ (by omega) (by omega),
      fat12_new_packed_even _ _ hrv]
    simp only [Nat.shiftRight_eq_div_pow, h16]
    omega
  · by_cases e3 : c + c / 2 + 1 = p + p / 2
    · -- overlap: p odd, c = p - 1; the read's high byte is the written low byte
      have hp2 : p % 2 = 1 := by omega
      have hc2 : c % 2 = 0 := by omega
      simp only [and_one_beq_zero_of_odd hp2, Bool.false_eq_true, if_false,
        and_one_beq_zero_of_even hc2, if_true]
      unfold readU16le
      rw [e3, writeU16le_at_lo, writeU16le_other _ _ _ _ (by omega) (by omega),
        fat12_new_packed_odd _ _ hrv]
      simp only [and_0xFFF]
      omega
    · -- the packed cells do not share a byte
      have h1 : c + c / 2 ≠ p + p / 2 := by omega
      have h4 : c + c / 2 + 1 ≠ p + p / 2 + 1 := by omega
      have hR : ∀ w, readU16le (writeU16le bs (p + p / 2) w) (c + c / 2) =
          readU16le bs (c + c / 2) := fun w =>
        readU16le_writeU16le_other bs (p + p / 2) w (c + c / 2) h1 e2 e3 h4
      rw [hR]

theorem fat16_get_raw_set_same (bs : Bytes) (c : Nat) (v : FatValue) :
    Fat16.get_raw (Fat16.set bs c v) c = Fat16.raw_value v := by
  simp only [Fat16.get_raw, Fat16.set]
  rw [readU16le_writeU16le_same]
  rcases v with _ | n | _ | _ <;> simp [Fat16.raw_value] <;> omega

theorem fat16_get_raw_set_ne (bs : Bytes) (p c : Nat) (v : FatValue) (hne : p ≠ c) :
    Fat16.get_raw (Fat16.set bs p v) c = Fat16.get_raw bs c := by
  simp only [Fat16.get_raw, Fat16.set]
  exact readU16le_writeU16le_other bs (p * 2) _ (c * 2) (by omega) (by omega) (by omega)
    (by omega)

theorem fat32_get_raw_set_same (bs : Bytes) (c : Nat) (v : FatValue) :
    Fat32.get_raw (Fat32.set bs c v) c = Fat32.raw_value v % 268435456 := by
  simp only [Fat32.get_raw, Fat32.set]
  rw [readU32le_writeU32le_same, and_28bits]
  rcases v with _ | n | _ | _ <;> simp [Fat32.raw_value] <;> omega

theorem fat32_get_raw_set_ne (bs : Bytes) (p c : Nat) (v : FatValue) (hne : p ≠ c) :
    Fat32.get_raw (Fat32.set bs p v) c = Fat32.get_raw bs c := by
  simp only [Fat32.get_raw, Fat32.set]
  unfold readU32le
  rw [writeU32le_other _ _ _ _ (by omega) (by omega) (by omega) (by omega),
    writeU32le_other _ _ _ _ (by omega) (by omega) (by omega) (by omega),
    writeU32le_other _ _ _ _ (by omega) (by omega) (by omega) (by omega),
    writeU32le_other _ _ _ _ (by omega) (by omega) (by omega) (by omega)]

/-! ## Claim C1 (`src/table.rs`, FAT entry round-trip) -/

theorem fat12_raw_value_lt (tc : Nat) (v : FatValue) (htc : tc ≤ 4084)
    (hv : v.ValidFor tc) : Fat12.raw_value v < 4096 := by
  rcases v with _ | n | _ | _
  · decide
  · simp only [FatValue.ValidFor] at hv
    simp only [Fat12.raw_value]
    omega
  · decide
  · decide

theorem read_write_fat_same (ft : FatType) (bs : Bytes) (tc c : Nat) (v : FatValue)
    (htc : tc ≤ ft.max_total_clusters) (hv : v.ValidFor tc) :
    read_fat (write_fat bs ft c v) ft c = v := by
  rcases ft with _ | _ | _
  · simp only [FatType.max_total_clusters] at htc
    have hrv := fat12_raw_value_lt tc v htc hv
    simp only [read_fat, write_fat, Fat12.get]
    rw [fat12_get_raw_set_same _ _ _ hrv]
    rcases v with _ | n | _ | _
    · decide
    · simp only [FatValue.ValidFor] at hv
      simp only [Fat12.raw_value]
      have hn : n % 65536 = n := by omega
      rw [hn, if_neg (by omega), if_neg (by omega), if_neg (by omega)]
    · decide
    · decide
  · simp only [FatType.max_total_clusters] at htc
    simp only [read_fat, write_fat, Fat16.get]
    rw [fat16_get_raw_set_same]
    rcases v with _ | n | _ | _
    · decide
    · simp only [FatValue.ValidFor] at hv
      simp only [Fat16.raw_value]
      have hn : n % 65536 = n := by omega
      rw [hn, if_neg (by omega), if_neg (by omega), if_neg (by omega)]
    · decide
    · decide
  · simp only [FatType.max_total_clusters] at htc
    simp only [read_fat, write_fat, Fat32.get]
    rw [fat32_get_raw_set_same]
    rcases v with _ | n | _ | _
    · decide
    · simp only [FatValue.ValidFor] at hv
      simp only [Fat32.raw_value]
      have hn : n % 4294967296 % 268435456 = n := by omega
      rw [hn, if_neg (by omega), if_neg (by omega), if_neg (by omega)]
    · decide
    · decide

theorem read_fat_write_fat_ne (ft : FatType) (bs : Bytes) (p c : Nat) (v : FatValue)
    (hb : BytesBounded bs) (hrv12 : ft = .Fat12 → Fat12.raw_value v < 4096) (hne : p ≠ c) :
    read_fat (write_fat bs ft p v) ft c = read_fat bs ft c := by
  rcases ft with _ | _ | _
  · simp only [read_fat, write_fat, Fat12.get]
    rw [fat12_get_raw_set_ne bs hb p c v (hrv12 rfl) hne]
  · simp only [read_fat, write_fat, Fat16.get]
    rw [fat16_get_raw_set_ne bs p c v hne]
  · simp only [read_fat, write_fat, Fat32.get]
    rw [fat32_get_raw_set_ne bs p c v hne]

theorem bytesBounded_write_fat {bs : Bytes} (hb : BytesBounded bs) (ft : FatType)
    (c : Nat) (v : FatValue) : BytesBounded (write_fat bs ft c v) := by
  rcases ft with _ | _ | _
  · simp only [write_fat, Fat12.set]
    exact bytesBounded_writeU16le hb _ _
  · simp only [write_fat, Fat16.set]
    exact bytesBounded_writeU16le hb _ _
  · simp only [write_fat, Fat32.set]
    exact bytesBounded_writeU32le hb _ _

/-- Claim C1 counterexample: on FAT32 the high 4 bits of the 32-bit cell
are *not* preserved by a write.  Cluster 2's cell (bytes 8..11) starts as
`0xF0000000`; writing `Free` rewrites the whole cell with `0`, so the
high nibble drops from 15 to 0 (reads are unaffected because `get_raw`
masks to 28 bits anyway). -/
theorem fat32_high_bits_not_preserved :
    readU32le (fun i => if i = 11 then 0xF0 else 0) (2 * 4) >>> 28 = 15 ∧
    readU32le (Fat32.set (fun i => if i = 11 then 0xF0 else 0) 2 .Free) (2 * 4) >>> 28 = 0 ∧
    Fat32.get (fun i => if i = 11 then 0xF0 else 0) 2 =
      Fat32.get (Fat32.set (fun i => if i = 11 then 0xF0 else 0) 2 .Free) 2 := by
  refine ⟨by decide, by decide, by decide⟩

/-- Claim C1 (amended): for every FAT variant and cluster
`c ∈ [2, total_clusters + 2)`, writing a valid FAT value and reading the
same entry returns the value exactly; on FAT32 the write replaces the
*entire* 32-bit cell with the encoded raw value (so the high 4 bits
stored before the write become those of the encoded value — they are
ignored, not preserved; reads mask to the low 28 bits). -/
theorem fat_set_get_roundtrip (ft : FatType) (bs : Bytes) (tc c : Nat) (v : FatValue)
    (hc2 : 2 ≤ c) (hcu : c < tc + 2) (htc : tc ≤ ft.max_total_clusters)
    (hv : v.ValidFor tc) :
    read_fat (write_fat bs ft c v) ft c = v ∧
    (ft = .Fat32 → readU32le (write_fat bs ft c v) (c * 4) = Fat32.raw_value v) := by
  refine ⟨read_write_fat_same ft bs tc c v htc hv, ?_⟩
  intro hft
  subst hft
  simp only [write_fat, Fat32.set]
  rw [readU32le_writeU32le_same]
  rcases v with _ | n | _ | _ <;> simp [Fat32.raw_value] <;> omega

/-- Claim C1 witness: the amended round-trip at concrete inputs on each
variant (an all-zero table, cluster 3, value `Data 7`). -/
theorem fat_set_get_roundtrip_witness :
    (read_fat (write_fat (fun _ => 0) .Fat12 3 (.Data 7)) .Fat12 3 = .Data 7 ∧
      (FatType.Fat12 = .Fat32 →
        readU32le (write_fat (fun _ => 0) .Fat12 3 (.Data 7)) (3 * 4) =
          Fat32.raw_value (.Data 7))) ∧
    (read_fat (write_fat (fun _ => 0) .Fat32 3 .EndOfChain) .Fat32 3 = .EndOfChain ∧
      (FatType.Fat32 = .Fat32 →
        readU32le (write_fat (fun _ => 0) .Fat32 3 .EndOfChain) (3 * 4) =
          Fat32.raw_value .EndOfChain)) :=
  ⟨fat_set_get_roundtrip .Fat12 (fun _ => 0) 100 3 (.Data 7) (by decide) (by decide)
      (by decide) (by exact ⟨by decide, by decide⟩),
   fat_set_get_roundtrip .Fat32 (fun _ => 0) 100 3 .EndOfChain (by decide) (by decide)
      (by decide) trivial⟩

/-! ## Claim C2 (`src/table.rs`, `alloc_cluster`) -/

theorem fat12_find_free_loop_spec : ∀ (fuel : Nat) (bs : Bytes) (s e c : Nat),
    fuel ≤ e - s → Fat12.find_free_loop bs s e fuel = some c →
    s ≤ c ∧ c < e ∧ Fat12.get_raw bs c = 0 := by
  intro fuel
  induction fuel with
  | zero =>
    intro bs s e c _ h
    simp [Fat12.find_free_loop] at h
  | succ f ih =>
    intro bs s e c hfuel h
    simp only [Fat12.find_free_loop] at h
    split_ifs at h with h1 h2
    · injection h with hh
      subst hh
      exact ⟨le_refl _, by omega, h1⟩
    · have hrec := ih bs (s + 1) e c (by omega) h
      exact ⟨by omega, hrec.2.1, hrec.2.2⟩

theorem fat12_find_free_spec (bs : Bytes) (s e c : Nat)
    (h : Fat12.find_free bs s e = some c) :
    s ≤ c ∧ c < e ∧ Fat12.get_raw bs c = 0 := by
  unfold Fat12.find_free at h
  exact fat12_find_free_loop_spec (e - s) bs s e c (le_refl _) h

theorem fat16_find_free_spec_aux : ∀ (n : Nat) (bs : Bytes) (s e c : Nat), e - s = n →
    Fat16.find_free bs s e = some c → s ≤ c ∧ c < e ∧ readU16le bs (c * 2) = 0 := by
  intro n
  induction n using Nat.strong_induction_on with
  | _ n ih =>
    intro bs s e c hn h
    unfold Fat16.find_free at h
    split_ifs at h with h1 h2
    · injection h with hh
      subst hh
      exact ⟨le_refl _, h1, h2⟩
    · have hrec := ih (e - (s + 1)) (by omega) bs (s + 1) e c rfl h
      exact ⟨by omega, hrec.2.1, hrec.2.2⟩

theorem fat16_find_free_spec (bs : Bytes) (s e c : Nat)
    (h : Fat16.find_free bs s e = some c) :
    s ≤ c ∧ c < e ∧ readU16le bs (c * 2) = 0 :=
  fat16_find_free_spec_aux (e - s) bs s e c rfl h

theorem fat32_find_free_spec_aux : ∀ (n : Nat) (bs : Bytes) (s e c : Nat), e - s = n →
    Fat32.find_free bs s e = some c →
    s ≤ c ∧ c < e ∧ readU32le bs (c * 4) &&& 0x0FFFFFFF = 0 := by
  intro n
  induction n using Nat.strong_induction_on with
  | _ n ih =>
    intro bs s e c hn h
    unfold Fat32.find_free at h
    split_ifs at h with h1 h2
    · injection h with hh
      subst hh
      exact ⟨le_refl _, h1, h2⟩
    · have hrec := ih (e - (s + 1)) (by omega) bs (s + 1) e c rfl h
      exact ⟨by omega, hrec.2.1, hrec.2.2⟩

theorem fat32_find_free_spec (bs : Bytes) (s e c : Nat)
    (h : Fat32.find_free bs s e = some c) :
    s ≤ c ∧ c < e ∧ readU32le bs (c * 4) &&& 0x0FFFFFFF = 0 :=
  fat32_find_free_spec_aux (e - s) bs s e c rfl h

theorem find_free_cluster_spec (bs : Bytes) (ft : FatType) (s e c : Nat)
    (h : find_free_cluster bs ft s e = some c) :
    s ≤ c ∧ c < e ∧ read_fat bs ft c = .Free := by
  rcases ft with _ | _ | _
  · have h2 := fat12_find_free_spec bs s e c h
    exact ⟨h2.1, h2.2.1, by simp [read_fat, Fat12.get, h2.2.2]⟩
  · have h2 := fat16_find_free_spec bs s e c h
    exact ⟨h2.1, h2.2.1, by simp [read_fat, Fat16.get, Fat16.get_raw, h2.2.2]⟩
  · have h2 := fat32_find_free_spec bs s e c h
    exact ⟨h2.1, h2.2.1, by simp [read_fat, Fat32.get, Fat32.get_raw, h2.2.2]⟩

theorem alloc_writes_none (bs : Bytes) (ft : FatType) (tc c : Nat)
    (htc : tc ≤ ft.max_total_clusters) :
    read_fat (write_fat bs ft c .EndOfChain) ft c = .EndOfChain :=
  read_write_fat_same ft bs tc c .EndOfChain htc trivial

theorem alloc_writes_some (bs : Bytes) (ft : FatType) (tc c p : Nat)
    (hb : BytesBounded bs) (htc : tc ≤ ft.max_total_clusters)
    (h2c : 2 ≤ c) (hlt : c < tc + 2) (hpc : p ≠ c) :
    read_fat (write_fat (write_fat bs ft c .EndOfChain) ft p (.Data c)) ft c =
      .EndOfChain ∧
    read_fat (write_fat (write_fat bs ft c .EndOfChain) ft p (.Data c)) ft p =
      .Data c := by
  have hvdata : (FatValue.Data c).ValidFor tc := ⟨h2c, hlt⟩
  constructor
  · rw [read_fat_write_fat_ne ft _ p c (.Data c)
      (bytesBounded_write_fat hb ft c .EndOfChain)
      (fun hft => fat12_raw_value_lt tc (.Data c)
        (by rw [hft] at htc; simpa [FatType.max_total_clusters] using htc) hvdata) hpc]
    exact read_write_fat_same ft bs tc c .EndOfChain htc trivial
  · exact read_write_fat_same ft (write_fat bs ft c .EndOfChain) tc p (.Data c) htc hvdata

/-- Claim C2: whenever `alloc_cluster(prev, hint)` succeeds with cluster
`c`, the entry of `c` was `Free` immediately before the call, equals the
end-of-chain sentinel afterwards, and if `prev = Some(p)` the entry of
`p` equals `Data(c)` afterwards.  The hypotheses record the call-site
invariants: the table's bytes are in range, the cluster count fits the
variant, a hint names a real cluster index (`≥ 2`), and `prev` (the tail
of an existing chain) is never a free entry. -/
theorem alloc_cluster_correct (bs : Bytes) (ft : FatType) (prev hint : Option Nat)
    (tc : Nat) (bs2 : Bytes) (c : Nat)
    (hb : BytesBounded bs)
    (htc : tc ≤ ft.max_total_clusters)
    (hhint : ∀ n, hint = some n → 2 ≤ n)
    (hprev : ∀ p, prev = some p → read_fat bs ft p ≠ .Free)
    (halloc : alloc_cluster bs ft prev hint tc = some (bs2, c)) :
    read_fat bs ft c = .Free ∧ read_fat bs2 ft c = .EndOfChain ∧
      ∀ p, prev = some p → read_fat bs2 ft p = .Data c := by
  unfold alloc_cluster at halloc
  simp only [RESERVED_FAT_ENTRIES] at halloc
  suffices h : 2 ≤ c ∧ c < tc + 2 ∧ read_fat bs ft c = .Free ∧
      ((prev = none ∧ bs2 = write_fat bs ft c .EndOfChain) ∨
        (∃ p, prev = some p ∧
          bs2 = write_fat (write_fat bs ft c .EndOfChain) ft p (.Data c))) by
    obtain ⟨h2n, hnu, hnfree, hrest⟩ := h
    rcases hrest with ⟨hpnone, hbs2⟩ | ⟨p, hpsome, hbs2⟩
    · subst hbs2
      refine ⟨hnfree, alloc_writes_none bs ft tc c htc, ?_⟩
      intro q hq
      rw [hpnone] at hq
      exact absurd hq (by simp)
    · subst hbs2
      subst hpsome
      have hpc : p ≠ c := fun he => hprev p rfl (he ▸ hnfree)
      refine ⟨hnfree, (alloc_writes_some bs ft tc c p hb htc h2n hnu hpc).1, ?_⟩
      intro q hq
      injection hq with hq
      subst hq
      exact (alloc_writes_some bs ft tc c p hb htc h2n hnu hpc).2
  rcases hint with _ | n0
  · -- no hint: scan starts at cluster 2 and there is no fallback scan
    simp only [] at halloc
    rcases h1 : find_free_cluster bs ft 2 (tc + 2) with _ | n
    · rw [h1] at halloc
      simp at halloc
    · rw [h1] at halloc
      simp only [Option.some.injEq, Prod.mk.injEq] at halloc
      obtain ⟨hw, hc⟩ := halloc
      subst hc
      have hs := find_free_cluster_spec bs ft 2 (tc + 2) n h1
      refine ⟨hs.1, hs.2.1, hs.2.2, ?_⟩
      rcases prev with _ | p
      · simp only [] at hw
        exact Or.inl ⟨rfl, hw.symm⟩
      · simp only [] at hw
        exact Or.inr ⟨p, rfl, hw.symm⟩
  · have hn0 := hhint n0 rfl
    simp only [] at halloc
    by_cases hlt : n0 < tc + 2
    · rw [if_pos hlt] at halloc
      rcases h1 : find_free_cluster bs ft n0 (tc + 2) with _ | n
      · rw [h1] at halloc
        simp only [] at halloc
        by_cases hgt : n0 > 2
        · rw [if_pos hgt] at halloc
          rcases h2 : find_free_cluster bs ft 2 n0 with _ | m
          · rw [h2] at halloc
            simp at halloc
          · rw [h2] at halloc
            simp only [Option.some.injEq, Prod.mk.injEq] at halloc
            obtain ⟨hw, hc⟩ := halloc
            subst hc
            have hs := find_free_cluster_spec bs ft 2 n0 m h2
            refine ⟨hs.1, by omega, hs.2.2, ?_⟩
            rcases prev with _ | p
            · simp only [] at hw
              exact Or.inl ⟨rfl, hw.symm⟩
            · simp only [] at hw
              exact Or.inr ⟨p, rfl, hw.symm⟩
        · rw [if_neg hgt] at halloc
          simp at halloc
      · rw [h1] at halloc
        simp only [Option.some.injEq, Prod.mk.injEq] at halloc
        obtain ⟨hw, hc⟩ := halloc
        subst hc
        have hs := find_free_cluster_spec bs ft n0 (tc + 2) n h1
        refine ⟨by omega, hs.2.1, hs.2.2, ?_⟩
        rcases prev with _ | p
        · simp only [] at hw
          exact Or.inl ⟨rfl, hw.symm⟩
        · simp only [] at hw
          exact Or.inr ⟨p, rfl, hw.symm⟩
    · rw [if_neg hlt] at halloc
      rcases h1 : find_free_cluster bs ft 2 (tc + 2) with _ | n
      · rw [h1] at halloc
        simp at halloc
      · rw [h1] at halloc
        simp only [Option.some.injEq, Prod.mk.injEq] at halloc
        obtain ⟨hw, hc⟩ := halloc
        subst hc
        have hs := find_free_cluster_spec bs ft 2 (tc + 2) n h1
        refine ⟨hs.1, hs.2.1, hs.2.2, ?_⟩
        rcases prev with _ | p
        · simp only [] at hw
          exact Or.inl ⟨rfl, hw.symm⟩
        · simp only [] at hw
          exact Or.inr ⟨p, rfl, hw.symm⟩

theorem alloc_cluster_correct_witness :
    read_fat (fun _ => 0) .Fat12 2 = .Free ∧
      read_fat (write_fat (fun _ => 0) .Fat12 2 .EndOfChain) .Fat12 2 = .EndOfChain ∧
      ∀ p, (none : Option Nat) = some p →
        read_fat (write_fat (fun _ => 0) .Fat12 2 .EndOfChain) .Fat12 p = .Data 2 :=
  alloc_cluster_correct (fun _ => 0) .Fat12 none none 1
    (write_fat (fun _ => 0) .Fat12 2 .EndOfChain) 2
    (fun _ => by norm_num) (by norm_num [FatType.max_total_clusters])
    (fun n h => by simp at h) (fun p h => by simp at h) rfl

/-! ## Claim C8 (`src/dir.rs`, `ShortNameGenerator`) -/

theorem add_existing_fields (g : ShortNameGenerator) (e : List Nat) :
    (g.add_existing e).chksum = g.chksum ∧ (g.add_existing e).short_name = g.short_name ∧
      (g.add_existing e).basename_len = g.basename_len ∧
      (g.add_existing e).name_fits = g.name_fits ∧
      (g.add_existing e).lossy_conv = g.lossy_conv :=
  ⟨rfl, rfl, rfl, rfl, rfl⟩

theorem add_existing_exact_mono (g : ShortNameGenerator) (e : List Nat)
    (h : g.exact_match = true) : (g.add_existing e).exact_match = true := by
  simp [ShortNameGenerator.add_existing, h]

theorem add_existing_long_mono (g : ShortNameGenerator) (e : List Nat) (k : Nat)
    (h : g.long_prefix_bitmap.testBit k = true) :
    (g.add_existing e).long_prefix_bitmap.testBit k = true := by
  simp only [ShortNameGenerator.add_existing]
  repeat' split <;> simp [Nat.testBit_or, h]

theorem add_existing_chk_mono (g : ShortNameGenerator) (e : List Nat) (k : Nat)
    (h : g.prefix_chksum_bitmap.testBit k = true) :
    (g.add_existing e).prefix_chksum_bitmap.testBit k = true := by
  simp only [ShortNameGenerator.add_existing]
  repeat' split <;> simp [Nat.testBit_or, h]

theorem add_existing_build (g : ShortNameGenerator) (e : List Nat) (k : Nat) (b : Bool) :
    (g.add_existing e).build_prefixed_name k b = g.build_prefixed_name k b := rfl

theorem add_existing_self_exact (g : ShortNameGenerator) :
    (g.add_existing g.short_name).exact_match = true := by
  simp [ShortNameGenerator.add_existing]

theorem copy_go_len : ∀ (src : List Char) (dst_len : Nat) (acc : List Nat) (lc : Bool),
    acc.length ≤ dst_len → (copy_short_name_part_go dst_len acc lc src).1.length ≤ dst_len := by
  intro src
  induction src with
  | nil => intro _ acc _ h; exact h
  | cons c rest ih =>
    intro dst_len acc lc h
    simp only [copy_short_name_part_go]
    split_ifs with h1 h2
    · exact h
    · exact ih _ _ _ h
    all_goals exact ih _ _ _ (by simp; omega)

theorem copy_len (dst_len : Nat) (src : List Char) :
    (copy_short_name_part dst_len src).1.length ≤ dst_len :=
  copy_go_len src dst_len [] false (by simp)

theorem new_short_name_length (name : List Char) :
    (ShortNameGenerator.new name).short_name.length = 11 := by
  unfold ShortNameGenerator.new
  rcases hf : name.reverse.findIdx? (fun c => c.toNat == 0x2E) with _ | i
  · simp only [hf]
    have hb := copy_len 8 name
    simp [List.length_replicate]
    omega
  · simp only [hf]
    have hb := copy_len 8 (name.take (name.length - 1 - i))
    have he := copy_len 3 (name.drop (name.length - 1 - i + 1))
    simp [List.length_replicate]
    omega

theorem checksum_fold_lt : ∀ (l : List Char) (acc : Nat), acc < 65536 →
    l.foldl (fun chksum c =>
      ((chksum >>> 1) + ((chksum &&& 1) <<< 15) + c.toNat % 65536) % 65536) acc < 65536 := by
  intro l
  induction l with
  | nil => intro acc h; exact h
  | cons c rest ih =>
    intro acc h
    exact ih _ (Nat.mod_lt _ (by norm_num))

theorem new_chksum_lt (name : List Char) : (ShortNameGenerator.new name).chksum < 65536 := by
  have h : (ShortNameGenerator.new name).chksum = ShortNameGenerator.checksum name := rfl
  rw [h]
  exact checksum_fold_lt name 0 (by norm_num)

theorem char_to_digit10_digit (k : Nat) (hk : k ≤ 9) : char_to_digit10 (0x30 + k) = some k := by
  unfold char_to_digit10
  rw [if_pos (by omega)]
  congr 1
  omega

theorem hexval_char16 (d : Nat) (hd : d < 16) :
    hex_digit_val (char_from_digit16_upper d) = some d := by
  unfold char_from_digit16_upper hex_digit_val
  by_cases h : d < 10
  · rw [if_pos h, if_pos (by omega)]
    congr 1
    omega
  · rw [if_neg h, if_neg (by omega), if_pos (by omega)]
    congr 1
    omega

theorem char16_ne_plus (d : Nat) : char_from_digit16_upper d ≠ 0x2B := by
  unfold char_from_digit16_upper
  split_ifs <;> omega

theorem from_str_radix16_u16 (x : Nat) (hx : x < 65536) :
    from_str_radix16 (u16_to_u8_array x) = some x := by
  have hm : ∀ y : Nat, y &&& 0xF = y % 16 := by
    intro y
    have h15 : (0xF : Nat) = 2 ^ 4 - 1 := rfl
    rw [h15, Nat.and_pow_two_sub_one_eq_mod]
  have e1 : (x >>> 12) &&& 0xF = x / 4096 := by
    rw [Nat.shiftRight_eq_div_pow, hm]
    exact Nat.mod_eq_of_lt (by omega)
  have e2 : (x >>> 8) &&& 0xF = x / 256 % 16 := by
    rw [Nat.shiftRight_eq_div_pow, hm]
  have e3 : (x >>> 4) &&& 0xF = x / 16 % 16 := by
    rw [Nat.shiftRight_eq_div_pow, hm]
  have e4 : x &&& 0xF = x % 16 := hm x
  have d1 : x / 4096 < 16 := by omega
  have d2 : x / 256 % 16 < 16 := Nat.mod_lt _ (by norm_num)
  have d3 : x / 16 % 16 < 16 := Nat.mod_lt _ (by norm_num)
  have d4 : x % 16 < 16 := Nat.mod_lt _ (by norm_num)
  unfold u16_to_u8_array
  rw [e1, e2, e3, e4]
  unfold from_str_radix16
  simp only [List.isEmpty, List.foldl]
  rw [if_neg (char16_ne_plus _)]
  simp only [List.isEmpty_cons, List.foldl, Bool.false_eq_true, if_false]
  rw [hexval_char16 _ d1, hexval_char16 _ d2, hexval_char16 _ d3, hexval_char16 _ d4]
  simp only []
  rw [if_pos (by omega)]
  simp only []
  rw [if_pos (by omega)]
  simp only []
  rw [if_pos (by omega)]
  simp only []
  rw [if_pos (by omega)]
  congr 1
  omega

theorem add_existing_long_hit (g : ShortNameGenerator) (k : Nat)
    (h11 : g.short_name.length = 11) (hk1 : 1 ≤ k) (hk9 : k ≤ 9) :
    ((g.add_existing (g.build_prefixed_name k false)).long_prefix_bitmap).testBit k = true := by
  have hpl6 : min g.basename_len 6 ≤ 6 := min_le_right _ _
  have htl : (g.short_name.take (min g.basename_len 6)).length = min g.basename_len 6 := by
    rw [List.length_take]
    omega
  have hbuild : g.build_prefixed_name k false =
      g.short_name.take (min g.basename_len 6) ++
        ([0x7E, 0x30 + k] ++ (List.replicate (8 - (min g.basename_len 6 + 2)) 0x20 ++
          g.short_name.drop 8)) := by
    simp [ShortNameGenerator.build_prefixed_name]
  have hget0 : (g.build_prefixed_name k false).getD (min g.basename_len 6) 0 = 0x7E := by
    rw [hbuild, List.getD_append_right _ _ _ _ htl.le, htl]
    simp
  have hget1 : (g.build_prefixed_name k false).getD (min g.basename_len 6 + 1) 0 = 0x30 + k := by
    rw [hbuild, List.getD_append_right _ _ _ _ (by omega), htl]
    simp
  have htake : (g.build_prefixed_name k false).take (min g.basename_len 6) =
      g.short_name.take (min g.basename_len 6) := by
    rw [hbuild]
    exact List.take_left' htl
  have hdrop : (g.build_prefixed_name k false).drop 8 = g.short_name.drop 8 := by
    rw [hbuild]
    have hassoc : g.short_name.take (min g.basename_len 6) ++
        ([0x7E, 0x30 + k] ++ (List.replicate (8 - (min g.basename_len 6 + 2)) 0x20 ++
          g.short_name.drop 8)) =
        (g.short_name.take (min g.basename_len 6) ++ ([0x7E, 0x30 + k] ++
          List.replicate (8 - (min g.basename_len 6 + 2)) 0x20)) ++ g.short_name.drop 8 := by
      simp [List.append_assoc]
    rw [hassoc]
    refine List.drop_left' ?_
    simp [htl]
    omega
  have hdig := char_to_digit10_digit k hk9
  simp only [ShortNameGenerator.add_existing, hget0, hget1, hdig, htake, hdrop]
  simp [Nat.testBit_or, Nat.shiftLeft_eq]

theorem add_existing_chk_hit (g : ShortNameGenerator) (k : Nat)
    (h11 : g.short_name.length = 11) (hchk : g.chksum < 65536)
    (hk1 : 1 ≤ k) (hk9 : k ≤ 9) :
    ((g.add_existing (g.build_prefixed_name k true)).prefix_chksum_bitmap).testBit k = true := by
  have hpl2 : min g.basename_len 2 ≤ 2 := min_le_right _ _
  have htl : (g.short_name.take (min g.basename_len 2)).length = min g.basename_len 2 := by
    rw [List.length_take]
    omega
  have hu4 : (u16_to_u8_array g.chksum).length = 4 := by
    simp [u16_to_u8_array]
  have hbuild : g.build_prefixed_name k true =
      g.short_name.take (min g.basename_len 2) ++
        (u16_to_u8_array g.chksum ++ ([0x7E, 0x30 + k] ++
          (List.replicate (8 - (min g.basename_len 2 + 4 + 2)) 0x20 ++
            g.short_name.drop 8))) := by
    simp [ShortNameGenerator.build_prefixed_name]
  have hget0 : (g.build_prefixed_name k true).getD (min g.basename_len 2 + 4) 0 = 0x7E := by
    rw [hbuild, List.getD_append_right _ _ _ _ (by omega), htl,
      List.getD_append_right _ _ _ _ (by omega), hu4]
    have h0 : min g.basename_len 2 + 4 - min g.basename_len 2 - 4 = 0 := by omega
    rw [h0]
    simp
  have hget1 : (g.build_prefixed_name k true).getD (min g.basename_len 2 + 4 + 1) 0 =
      0x30 + k := by
    rw [hbuild, List.getD_append_right _ _ _ _ (by omega), htl,
      List.getD_append_right _ _ _ _ (by omega), hu4]
    have h1 : min g.basename_len 2 + 4 + 1 - min g.basename_len 2 - 4 = 1 := by omega
    rw [h1]
    simp
  have htake : (g.build_prefixed_name k true).take (min g.basename_len 2) =
      g.short_name.take (min g.basename_len 2) := by
    rw [hbuild]
    exact List.take_left' htl
  have hdrop4 : ((g.build_prefixed_name k true).drop (min g.basename_len 2)).take 4 =
      u16_to_u8_array g.chksum := by
    rw [hbuild, List.drop_left' htl]
    have hassoc : u16_to_u8_array g.chksum ++ ([0x7E, 0x30 + k] ++
        (List.replicate (8 - (min g.basename_len 2 + 4 + 2)) 0x20 ++
          g.short_name.drop 8)) =
        u16_to_u8_array g.chksum ++ (([0x7E, 0x30 + k] ++
          (List.replicate (8 - (min g.basename_len 2 + 4 + 2)) 0x20 ++
            g.short_name.drop 8))) := rfl
    rw [hassoc]
    exact List.take_left' hu4
  have hdrop : (g.build_prefixed_name k true).drop 8 = g.short_name.drop 8 := by
    rw [hbuild]
    have hassoc : g.short_name.take (min g.basename_len 2) ++
        (u16_to_u8_array g.chksum ++ ([0x7E, 0x30 + k] ++
          (List.replicate (8 - (min g.basename_len 2 + 4 + 2)) 0x20 ++
            g.short_name.drop 8))) =
        (g.short_name.take (min g.basename_len 2) ++ (u16_to_u8_array g.chksum ++
          ([0x7E, 0x30 + k] ++
            List.replicate (8 - (min g.basename_len 2 + 4 + 2)) 0x20))) ++
          g.short_name.drop 8 := by
      simp [List.append_assoc]
    rw [hassoc]
    refine List.drop_left' ?_
    simp [htl, hu4]
    omega
  have hdig := char_to_digit10_digit k hk9
  have hfsr := from_str_radix16_u16 g.chksum hchk
  simp only [ShortNameGenerator.add_existing, hget0, hget1, hdig, htake, hdrop, hdrop4, hfsr]
  simp [Nat.testBit_or, Nat.shiftLeft_eq]

theorem foldl_add_existing_fields (l : List (List Nat)) :
    ∀ g : ShortNameGenerator,
      (l.foldl ShortNameGenerator.add_existing g).chksum = g.chksum ∧
      (l.foldl ShortNameGenerator.add_existing g).short_name = g.short_name ∧
      (l.foldl ShortNameGenerator.add_existing g).basename_len = g.basename_len ∧
      (l.foldl ShortNameGenerator.add_existing g).name_fits = g.name_fits ∧
      (l.foldl ShortNameGenerator.add_existing g).lossy_conv = g.lossy_conv := by
  induction l with
  | nil => intro g; exact ⟨rfl, rfl, rfl, rfl, rfl⟩
  | cons e rest ih =>
    intro g
    have hstep := add_existing_fields g e
    have hrest := ih (g.add_existing e)
    simp only [List.foldl]
    exact ⟨hrest.1.trans hstep.1, hrest.2.1.trans hstep.2.1,
      hrest.2.2.1.trans hstep.2.2.1, hrest.2.2.2.1.trans hstep.2.2.2.1,
      hrest.2.2.2.2.trans hstep.2.2.2.2⟩

theorem foldl_exact_mono (l : List (List Nat)) :
    ∀ g : ShortNameGenerator, g.exact_match = true →
      (l.foldl ShortNameGenerator.add_existing g).exact_match = true := by
  induction l with
  | nil => intro g h; exact h
  | cons e rest ih => intro g h; exact ih _ (add_existing_exact_mono g e h)

theorem foldl_long_mono (l : List (List Nat)) :
    ∀ (g : ShortNameGenerator) (k : Nat), g.long_prefix_bitmap.testBit k = true →
      (l.foldl ShortNameGenerator.add_existing g).long_prefix_bitmap.testBit k = true := by
  induction l with
  | nil => intro g _ h; exact h
  | cons e rest ih => intro g k h; exact ih _ k (add_existing_long_mono g e k h)

theorem foldl_chk_mono (l : List (List Nat)) :
    ∀ (g : ShortNameGenerator) (k : Nat), g.prefix_chksum_bitmap.testBit k = true →
      (l.foldl ShortNameGenerator.add_existing g).prefix_chksum_bitmap.testBit k = true := by
  induction l with
  | nil => intro g _ h; exact h
  | cons e rest ih => intro g k h; exact ih _ k (add_existing_chk_mono g e k h)

theorem foldl_exact_of_mem (l : List (List Nat)) :
    ∀ g : ShortNameGenerator, g.short_name ∈ l →
      (l.foldl ShortNameGenerator.add_existing g).exact_match = true := by
  induction l with
  | nil => intro g h; exact absurd h (List.not_mem_nil _)
  | cons e rest ih =>
    intro g h
    rcases List.mem_cons.mp h with he | hm
    · simp only [List.foldl]
      refine foldl_exact_mono rest _ ?_
      rw [← he]
      exact add_existing_self_exact g
    · simp only [List.foldl]
      refine ih (g.add_existing e) ?_
      rw [(add_existing_fields g e).2.1]
      exact hm

theorem foldl_long_of_mem (l : List (List Nat)) :
    ∀ (g : ShortNameGenerator) (k : Nat), g.short_name.length = 11 → 1 ≤ k → k ≤ 9 →
      g.build_prefixed_name k false ∈ l →
      (l.foldl ShortNameGenerator.add_existing g).long_prefix_bitmap.testBit k = true := by
  induction l with
  | nil => intro g k _ _ _ h; exact absurd h (List.not_mem_nil _)
  | cons e rest ih =>
    intro g k h11 hk1 hk9 h
    rcases List.mem_cons.mp h with he | hm
    · simp only [List.foldl]
      refine foldl_long_mono rest _ k ?_
      rw [← he]
      exact add_existing_long_hit g k h11 hk1 hk9
    · simp only [List.foldl]
      refine ih (g.add_existing e) k ?_ hk1 hk9 ?_
      · rw [(add_existing_fields g e).2.1]
        exact h11
      · rw [add_existing_build g e k false]
        exact hm

theorem foldl_chk_of_mem (l : List (List Nat)) :
    ∀ (g : ShortNameGenerator) (k : Nat), g.short_name.length = 11 → g.chksum < 65536 →
      1 ≤ k → k ≤ 9 → g.build_prefixed_name k true ∈ l →
      (l.foldl ShortNameGenerator.add_existing g).prefix_chksum_bitmap.testBit k = true := by
  induction l with
  | nil => intro g k _ _ _ _ h; exact absurd h (List.not_mem_nil _)
  | cons e rest ih =>
    intro g k h11 hchk hk1 hk9 h
    rcases List.mem_cons.mp h with he | hm
    · simp only [List.foldl]
      refine foldl_chk_mono rest _ k ?_
      rw [← he]
      exact add_existing_chk_hit g k h11 hchk hk1 hk9
    · simp only [List.foldl]
      refine ih (g.add_existing e) k ?_ ?_ hk1 hk9 ?_
      · rw [(add_existing_fields g e).2.1]
        exact h11
      · rw [(add_existing_fields g e).1]
        exact hchk
      · rw [add_existing_build g e k true]
        exact hm

theorem foldl_build_invariant (l : List (List Nat)) :
    ∀ (g : ShortNameGenerator) (k : Nat) (b : Bool),
      (l.foldl ShortNameGenerator.add_existing g).build_prefixed_name k b =
        g.build_prefixed_name k b := by
  induction l with
  | nil => intro g k b; rfl
  | cons e rest ih =>
    intro g k b
    simp only [List.foldl]
    rw [ih (g.add_existing e) k b, add_existing_build g e k b]

theorem and_shiftLeft_one_eq_zero {x k : Nat} (h : x &&& 1 <<< k = 0) :
    x.testBit k = false := by
  rw [Nat.shiftLeft_eq, one_mul, Nat.and_two_pow] at h
  cases htb : x.testBit k
  · rfl
  · rw [htb] at h
    simp at h

theorem generate_cases (g : ShortNameGenerator) (sfn : List Nat)
    (h : g.generate = Except.ok sfn) :
    (sfn = g.short_name ∧ g.exact_match = false) ∨
      (∃ k, 1 ≤ k ∧ k ≤ 9 ∧ sfn = g.build_prefixed_name k false ∧
        g.long_prefix_bitmap.testBit k = false) ∨
      (∃ k, 1 ≤ k ∧ k ≤ 9 ∧ sfn = g.build_prefixed_name k true ∧
        g.prefix_chksum_bitmap.testBit k = false) := by
  unfold ShortNameGenerator.generate at h
  by_cases hc1 : (!g.lossy_conv && g.name_fits && !g.exact_match) = true
  · rw [if_pos hc1] at h
    injection h with hb
    refine Or.inl ⟨hb.symm, ?_⟩
    rcases hx : g.exact_match
    · rfl
    · rw [hx] at hc1
      simp at hc1
  · rw [if_neg hc1] at h
    by_cases hc2 : g.long_prefix_bitmap &&& 1 <<< 1 = 0
    · rw [if_pos hc2] at h
      exact Or.inr (Or.inl ⟨1, by norm_num, by norm_num,
        (Except.ok.inj h).symm, and_shiftLeft_one_eq_zero hc2⟩)
    · rw [if_neg hc2] at h
      by_cases hc3 : g.long_prefix_bitmap &&& 1 <<< 2 = 0
      · rw [if_pos hc3] at h
        exact Or.inr (Or.inl ⟨2, by norm_num, by norm_num,
          (Except.ok.inj h).symm, and_shiftLeft_one_eq_zero hc3⟩)
      · rw [if_neg hc3] at h
        by_cases hc4 : g.long_prefix_bitmap &&& 1 <<< 3 = 0
        · rw [if_pos hc4] at h
          exact Or.inr (Or.inl ⟨3, by norm_num, by norm_num,
            (Except.ok.inj h).symm, and_shiftLeft_one_eq_zero hc4⟩)
        · rw [if_neg hc4] at h
          by_cases hc5 : g.long_prefix_bitmap &&& 1 <<< 4 = 0
          · rw [if_pos hc5] at h
            exact Or.inr (Or.inl ⟨4, by norm_num, by norm_num,
              (Except.ok.inj h).symm, and_shiftLeft_one_eq_zero hc5⟩)
          · rw [if_neg hc5] at h
            by_cases hc6 : g.prefix_chksum_bitmap &&& 1 <<< 1 = 0
            · rw [if_pos hc6] at h
              exact Or.inr (Or.inr ⟨1, by norm_num, by norm_num,
                (Except.ok.inj h).symm, and_shiftLeft_one_eq_zero hc6⟩)
            · rw [if_neg hc6] at h
              by_cases hc7 : g.prefix_chksum_bitmap &&& 1 <<< 2 = 0
              · rw [if_pos hc7] at h
                exact Or.inr (Or.inr ⟨2, by norm_num, by norm_num,
                  (Except.ok.inj h).symm, and_shiftLeft_one_eq_zero hc7⟩)
              · rw [if_neg hc7] at h
                by_cases hc8 : g.prefix_chksum_bitmap &&& 1 <<< 3 = 0
                · rw [if_pos hc8] at h
                  exact Or.inr (Or.inr ⟨3, by norm_num, by norm_num,
                    (Except.ok.inj h).symm, and_shiftLeft_one_eq_zero hc8⟩)
                · rw [if_neg hc8] at h
                  by_cases hc9 : g.prefix_chksum_bitmap &&& 1 <<< 4 = 0
                  · rw [if_pos hc9] at h
                    exact Or.inr (Or.inr ⟨4, by norm_num, by norm_num,
                      (Except.ok.inj h).symm, and_shiftLeft_one_eq_zero hc9⟩)
                  · rw [if_neg hc9] at h
                    by_cases hc10 : g.prefix_chksum_bitmap &&& 1 <<< 5 = 0
                    · rw [if_pos hc10] at h
                      exact Or.inr (Or.inr ⟨5, by norm_num, by norm_num,
                        (Except.ok.inj h).symm, and_shiftLeft_one_eq_zero hc10⟩)
                    · rw [if_neg hc10] at h
                      by_cases hc11 : g.prefix_chksum_bitmap &&& 1 <<< 6 = 0
                      · rw [if_pos hc11] at h
                        exact Or.inr (Or.inr ⟨6, by norm_num, by norm_num,
                          (Except.ok.inj h).symm, and_shiftLeft_one_eq_zero hc11⟩)
                      · rw [if_neg hc11] at h
                        by_cases hc12 : g.prefix_chksum_bitmap &&& 1 <<< 7 = 0
                        · rw [if_pos hc12] at h
                          exact Or.inr (Or.inr ⟨7, by norm_num, by norm_num,
                            (Except.ok.inj h).symm, and_shiftLeft_one_eq_zero hc12⟩)
                        · rw [if_neg hc12] at h
                          by_cases hc13 : g.prefix_chksum_bitmap &&& 1 <<< 8 = 0
                          · rw [if_pos hc13] at h
                            exact Or.inr (Or.inr ⟨8, by norm_num, by norm_num,
                              (Except.ok.inj h).symm, and_shiftLeft_one_eq_zero hc13⟩)
                          · rw [if_neg hc13] at h
                            by_cases hc14 : g.prefix_chksum_bitmap &&& 1 <<< 9 = 0
                            · rw [if_pos hc14] at h
                              exact Or.inr (Or.inr ⟨9, by norm_num, by norm_num,
                                (Except.ok.inj h).symm, and_shiftLeft_one_eq_zero hc14⟩)
                            · rw [if_neg hc14] at h
                              exact Except.noConfusion h

/-- Claim C8: for every long name and every sequence of short names fed
to `ShortNameGenerator::add_existing`, a successful `generate()` never
returns a name that was passed to `add_existing` — every collision with
the as-is name, with a `PREFIX~k` form, or with a `PR<chksum>~k` form is
recorded in the corresponding flag or bitmap, and `generate` only picks
forms whose bit is clear (failing with `AlreadyExists` once all are
taken). -/
theorem short_name_gen_no_reuse (name : List Char) (existing : List (List Nat)) (sfn : List Nat)
    (h : (existing.foldl ShortNameGenerator.add_existing
      (ShortNameGenerator.new name)).generate = Except.ok sfn) :
    sfn ∉ existing := by
  intro hmem
  have hf := foldl_add_existing_fields existing (ShortNameGenerator.new name)
  rcases generate_cases _ _ h with ⟨hb, hex⟩ | ⟨k, hk1, hk9, hb, htb⟩ | ⟨k, hk1, hk9, hb, htb⟩
  · have hx := foldl_exact_of_mem existing (ShortNameGenerator.new name)
      (by rw [← hf.2.1, ← hb]; exact hmem)
    rw [hx] at hex
    exact Bool.noConfusion hex
  · have hmem2 : (ShortNameGenerator.new name).build_prefixed_name k false ∈ existing := by
      rw [← foldl_build_invariant existing (ShortNameGenerator.new name) k false, ← hb]
      exact hmem
    have htb2 := foldl_long_of_mem existing (ShortNameGenerator.new name) k
      (new_short_name_length name) hk1 hk9 hmem2
    rw [htb2] at htb
    exact Bool.noConfusion htb
  · have hmem2 : (ShortNameGenerator.new name).build_prefixed_name k true ∈ existing := by
      rw [← foldl_build_invariant existing (ShortNameGenerator.new name) k true, ← hb]
      exact hmem
    have htb2 := foldl_chk_of_mem existing (ShortNameGenerator.new name) k
      (new_short_name_length name) (new_chksum_lt name) hk1 hk9 hmem2
    rw [htb2] at htb
    exact Bool.noConfusion htb

theorem short_name_gen_no_reuse_witness :
    ([0x41, 0x42, 0x20, 0x20, 0x20, 0x20, 0x20, 0x20, 0x20, 0x20, 0x20] : List Nat) ∉
      [List.replicate 11 0x5A] :=
  short_name_gen_no_reuse ['A', 'B'] [List.replicate 11 0x5A]
    [0x41, 0x42, 0x20, 0x20, 0x20, 0x20, 0x20, 0x20, 0x20, 0x20, 0x20] (by rfl)
